import Mathlib

/-!
Verification development for the WhisperHallu transcription pipeline.

The definitions below are a shallow embedding of the transcription core:
`src/json_util.py` (sentence segmentation, spam-phrase post-filter, Gladia
response normalization) and `src/transcribeHallu.py` (the hallucination-guard
transcription loop `transcribeMARK`, the orchestration entry `transcribeOpts`
with its weird-word remediation cascade, and the remote client
`transcribe_with_gladia`).

Modelling conventions:
* Python `str` is modelled as Lean `String` (with `List Char` views for
  scanning); Python float timestamps are modelled as `Rat` (the code only
  ever copies and compares them).
* Case folding (`str.lower`, `re.IGNORECASE`) is modelled with ASCII case
  folding (`Char.toLower`); the non-ASCII letters appearing in the phrase
  tables are already lowercase in the source patterns.
* Fallible Python code (uncaught `IndexError` and `TypeError`) is modelled
  with `Except String`; external effects (the speech backend, the remote
  HTTP service, the filesystem) are oracles passed in as arguments.
* Bounded loops in the source are written with an explicit fuel argument
  whose entry value strictly exceeds the loop bound, so the fuel-exhausted
  default branch is unreachable from the wrappers used below.
-/

namespace WH

/-- Python default whitespace set used by `str.strip` / `str.split`
(ASCII portion). -/
def pyWS (c : Char) : Bool :=
  c = ' ' || c = '\t' || c = '\n' || c = '\r' || c = '\x0b' || c = '\x0c'

/-- Python `str.strip()` on a character list. -/
def stripL (l : List Char) : List Char :=
  ((l.dropWhile pyWS).reverse.dropWhile pyWS).reverse

/-- Python `str.strip()`. -/
def stripS (s : String) : String :=
  String.mk (stripL s.toList)

/-- Python `' '.join(...)`. -/
def joinSp : List String → String
  | [] => ""
  | [x] => x
  | x :: xs => x ++ " " ++ joinSp xs

/-- Characters of a list with every whitespace character removed. -/
def wsquashL (l : List Char) : List Char :=
  l.filter (fun c => !pyWS c)

/-- Text with every whitespace character removed; two strings are equal
"up to whitespace differences" exactly when their `wsquash` images agree. -/
def wsquash (s : String) : List Char :=
  wsquashL s.toList

/-- Scanner for Python `str.count(sub)`: non-overlapping occurrences,
left to right, skipping `sub.length` characters after each hit.  The fuel
passed by `pyCount` exceeds the number of scan steps, so the fuel-0 branch
is unreachable there. -/
def occGo (sub : List Char) : Nat → List Char → Nat
  | 0, _ => 0
  | fuel + 1, s =>
    if sub.isPrefixOf s then 1 + occGo sub fuel (s.drop sub.length)
    else
      match s with
      | [] => 0
      | _ :: t => occGo sub fuel t

/-- Python `s.count(sub)`. -/
def pyCount (sub s : String) : Nat :=
  let subL := sub.toList
  let sL := s.toList
  if subL.isEmpty then sL.length + 1 else occGo subL (sL.length + 1) sL

/-- Python `sub in s` (substring containment). -/
def pyIn (sub s : String) : Bool :=
  decide (0 < pyCount sub s)

/-- ASCII lowering of a string, modelling Python `str.lower`. -/
def lowerS (s : String) : String :=
  String.mk (s.toList.map Char.toLower)

/-! ## Embedding of `src/json_util.py` -/

/-- One entry of a `words` list: `{"start": .., "end": .., "text": ..}`
(the Python `end` key is named `stop` here because `end` is reserved). -/
structure JWord where
  start : Rat
  stop : Rat
  text : String
deriving DecidableEq, Repr

/-- One transcript segment: `{"start", "end", "sentence", "words"}`
(`end` is named `stop`). -/
structure JSeg where
  start : Rat
  stop : Rat
  sentence : String
  words : List JWord
deriving DecidableEq, Repr

/-- Default word used with `headD`/`getLastD`; the guards of
`split_sentence` never let it be selected. -/
def wdflt : JWord := ⟨0, 0, ""⟩

/-- Default segment used with `getLastD`; never selected under the guards. -/
def sdflt : JSeg := ⟨0, 0, "", []⟩

/-- Closing test of `split_sentence`:
`word['text'].strip().endswith(',') or word['text'].strip().endswith('.')`.
A one-character `endswith` holds exactly when the last character matches
(and the string is non-empty). -/
def endsSentMark (t : String) : Bool :=
  match (stripL t.toList).getLast? with
  | some c => c = ',' || c = '.'
  | none => false

/-- Construction of one `new_sentence` dict in `split_sentence`. -/
def closeSeg (cur : List JWord) : JSeg :=
  { start := (cur.headD wdflt).start
    stop := (cur.getLastD wdflt).stop
    sentence := stripS (joinSp (cur.map (fun w => w.text)))
    words := cur }

/-- The append-short-remainder branch of `split_sentence`: extend the last
emitted sentence with the trailing word group. -/
def mergeLast (s : JSeg) (cur : List JWord) : JSeg :=
  { s with
    stop := (cur.getLastD wdflt).stop
    sentence := s.sentence ++ " " ++ joinSp (cur.map (fun w => w.text))
    words := s.words ++ cur }

/-- The word loop of `split_sentence`: `acc` is `new_sentences`, `cur` is
`current_words` (one text per word is kept in `current_part`, so its length
equals `cur.length`). -/
def splitGo (acc : List JSeg) (cur : List JWord) : List JWord → List JSeg
  | w :: ws =>
    let cur2 := cur ++ [w]
    if endsSentMark w.text ∧ 3 ≤ cur2.length then
      splitGo (acc ++ [closeSeg cur2]) [] ws
    else
      splitGo acc cur2 ws
  | [] =>
    match cur with
    | [] => acc
    | _ =>
      if acc ≠ [] ∧ cur.length < 3 then
        acc.dropLast ++ [mergeLast (acc.getLastD sdflt) cur]
      else
        acc ++ [closeSeg cur]

/-- Embedding of `json_util.split_sentence`.  The `parts` list is computed
and discarded exactly as in the source. -/
def split_sentence (sentence : String) (words : List JWord) : List JSeg :=
  let _parts :=
    (((sentence.replace "." ",").splitOn ",").map stripS).filter (fun p => p ≠ "")
  splitGo [] [] words

/-- Embedding of `json_util.contains_weird_words`: case-insensitive
substring test against the denylist. -/
def contains_weird_words (text : String) : Bool :=
  ["Hãy đăng ký kênh", "subscribe cho", "Ghiền Mì Gõ"].any
    (fun w => pyIn (lowerS w) (lowerS text))

/-- Test `',' in item['sentence'] or '.' in item['sentence']`. -/
def hasPunct (s : String) : Bool :=
  pyIn "," s || pyIn "." s

/-- Loop body of `json_util.process_json` for one item: spam-phrase
clearing (sentence and word list emptied, segment kept), then punctuation
splitting of the possibly cleared sentence. -/
def processItem (item : JSeg) : List JSeg :=
  let item :=
    if contains_weird_words item.sentence then
      { item with sentence := "", words := [] }
    else item
  if hasPunct item.sentence then
    split_sentence item.sentence item.words
  else
    [item]

/-- Embedding of `json_util.process_json`: the output list extended item
by item. -/
def process_json (input : List JSeg) : List JSeg :=
  input.foldl (fun out item => out ++ processItem item) []

/-- Embedding of `json_util.split_transcription`. -/
def split_transcription (input : List JSeg) : List JSeg :=
  process_json input

/-! ## Embedding of the Gladia response normalization (`json_util.py`) -/

/-- One word of a Gladia utterance (`word` key named `word`). -/
structure GWordJ where
  start : Rat
  stop : Rat
  word : String
deriving DecidableEq, Repr

/-- One Gladia utterance. -/
structure GUtt where
  start : Rat
  stop : Rat
  text : String
  words : List GWordJ
deriving DecidableEq, Repr

/-- One subtitle block (`{"subtitles": "..."}`); only the text is read. -/
structure GSub where
  subtitles : String
deriving DecidableEq, Repr

/-- A `transcription` or `translation.results[k]` section, restricted to
the keys the code reads; absent keys are folded into their `.get` defaults. -/
structure GSection where
  utterances : List GUtt
  full_transcript : String
  subtitles : List GSub
deriving DecidableEq, Repr

/-- The `translation` section (`results` list). -/
structure GTranslation where
  results : List GSection
deriving DecidableEq, Repr

/-- The `result` object of a Gladia response. -/
structure GRes where
  transcription : GSection
  translation : GTranslation
deriving DecidableEq, Repr

/-- Embedding of `json_util._get_utterances`; indexing `results[0]` on an
empty list raises, modelled as `Except.error`. -/
def get_utterances (g : GRes) (is_translation_empty : Bool) :
    Except String (List GUtt) :=
  if !is_translation_empty then
    match g.translation.results with
    | [] => .error "IndexError: list index out of range"
    | r :: _ => .ok r.utterances
  else
    .ok g.transcription.utterances

/-- Embedding of `json_util._create_json_segment`. -/
def create_json_segment (u : GUtt) : JSeg :=
  { start := u.start
    stop := u.stop
    sentence := stripS u.text
    words := u.words.map (fun w => ⟨w.start, w.stop, stripS w.word⟩) }

/-- Embedding of `json_util._get_text_and_srt`.  On the executed
(`is_translation_empty = true`) branch the source indexes
`transcription.get("subtitles", [])[0]` without an emptiness guard, so an
empty subtitle list raises; the guard exists only on the translation
branch. -/
def get_text_and_srt (g : GRes) (is_translation_empty : Bool) :
    Except String (String × String) :=
  if is_translation_empty then
    match g.transcription.subtitles with
    | [] => .error "IndexError: list index out of range"
    | s :: _ => .ok (g.transcription.full_transcript, s.subtitles)
  else
    match g.translation.results with
    | [] => .error "IndexError: list index out of range"
    | r :: _ =>
      .ok (r.full_transcript,
        match r.subtitles with
        | [] => ""
        | s :: _ => s.subtitles)

/-- A `{"text", "srt", "json"}` result dictionary. -/
structure MResult where
  text : String
  srt : String
  json : List JSeg
deriving DecidableEq, Repr

/-- The canonical empty result `{"text": "", "srt": "", "json": []}`. -/
def emptyMR : MResult := ⟨"", "", []⟩

/-- Embedding of `json_util.convert_gladia_to_internal_format`.  The source
hard-sets `is_translation_empty = True` immediately before use, so the
translation section is never consulted. -/
def convert_gladia_to_internal_format (g : GRes) : Except String MResult := do
  let is_translation_empty := true
  let utterances ← get_utterances g is_translation_empty
  let ts ← get_text_and_srt g is_translation_empty
  .ok { text := ts.1, srt := ts.2, json := utterances.map create_json_segment }

/-! ## A small Python-`re` engine

Only the constructs used by the marker patterns of `transcribeMARK` are
embedded: literal alternation words, the class `[.,!? ]`, greedy `*` and
`?`, `.` (any character but newline), and the `^` / `$` anchors without
`re.MULTILINE`.  Matching is backtracking with the Python priority order
(alternatives left to right, quantifiers greedy), driven by explicit fuel;
the fuel chosen by the wrappers exceeds the backtracking depth. -/

inductive RE where
  | eps : RE
  | anyc : RE
  | cls (cs : List Char) : RE
  | lit (s : List Char) : RE
  | alt (a b : RE) : RE
  | cat (a b : RE) : RE
  | star (r : RE) : RE
  | bos : RE
  | eos : RE
deriving Repr

/-- Greedy `?`. -/
def RE.opt (r : RE) : RE := .alt r .eps

/-- Size of a pattern, used to budget matcher fuel. -/
def reSize : RE → Nat
  | .eps | .anyc | .bos | .eos => 1
  | .cls _ => 1
  | .lit s => s.length + 1
  | .alt a b => reSize a + reSize b + 1
  | .cat a b => reSize a + reSize b + 1
  | .star r => reSize r + 1

/-- Case-insensitive literal match (ASCII folding, modelling
`re.IGNORECASE`); returns the rest of the input on success. -/
def litPrefix : List Char → List Char → Option (List Char)
  | [], s => some s
  | p :: ps, c :: cs => if p.toLower = c.toLower then litPrefix ps cs else none
  | _ :: _, [] => none

/-- Existence matcher in continuation style: does `r` match some prefix of
`s` (at absolute position `pos`) whose continuation accepts?  Alternation
and quantifier order follow Python priority, which is irrelevant for the
Boolean answer but keeps the evaluation short-circuiting. -/
def reEx : Nat → RE → Nat → List Char → (Nat → List Char → Bool) → Bool
  | 0, _, _, _, _ => false
  | fuel + 1, r, pos, s, k =>
    match r with
    | .eps => k pos s
    | .anyc =>
      match s with
      | c :: t => if c = '\n' then false else k (pos + 1) t
      | [] => false
    | .cls cs =>
      match s with
      | c :: t => cs.contains c && k (pos + 1) t
      | [] => false
    | .lit l =>
      match litPrefix l s with
      | some t => k (pos + l.length) t
      | none => false
    | .alt a b => reEx fuel a pos s k || reEx fuel b pos s k
    | .cat a b => reEx fuel a pos s (fun p t => reEx fuel b p t k)
    | .star a =>
      reEx fuel a pos s (fun p t => decide (pos < p) && reEx fuel (.star a) p t k)
        || k pos s
    | .bos => decide (pos = 0) && k pos s
    | .eos => (decide (s = []) || decide (s = ['\n'])) && k pos s

/-- Priority-first matcher: the first match found in Python backtracking
order, as `(end position, rest of input)`. -/
def reFst :
    Nat → RE → Nat → List Char → (Nat → List Char → Option (Nat × List Char)) →
    Option (Nat × List Char)
  | 0, _, _, _, _ => none
  | fuel + 1, r, pos, s, k =>
    match r with
    | .eps => k pos s
    | .anyc =>
      match s with
      | c :: t => if c = '\n' then none else k (pos + 1) t
      | [] => none
    | .cls cs =>
      match s with
      | c :: t => if cs.contains c then k (pos + 1) t else none
      | [] => none
    | .lit l =>
      match litPrefix l s with
      | some t => k (pos + l.length) t
      | none => none
    | .alt a b => reFst fuel a pos s k <|> reFst fuel b pos s k
    | .cat a b => reFst fuel a pos s (fun p t => reFst fuel b p t k)
    | .star a =>
      (reFst fuel a pos s
          (fun p t => if pos < p then reFst fuel (.star a) p t k else none))
        <|> k pos s
    | .bos => if pos = 0 then k pos s else none
    | .eos => if s = [] ∨ s = ['\n'] then k pos s else none

/-- Fuel budget that exceeds the nesting depth of any backtracking run of
the patterns below on the given input. -/
def reFuel (r : RE) (s : List Char) : Nat :=
  (reSize r + 2) * (s.length + 2)

/-- Embedding of `re.match(r, s, re.IGNORECASE)` as a Boolean: an attempt
anchored at position 0 only (this is `match`, not `search`). -/
def pyMatch (r : RE) (s : String) : Bool :=
  reEx (reFuel r s.toList) r 0 s.toList (fun _ _ => true)

/-- Scanner of `re.sub(r, "", s, count)`: at each position try the pattern
(priority-first); on a non-empty match drop it, spend one replacement and
resume after it, otherwise emit one character and move on.  Fuel exceeds
the input length, so the fuel-0 branch is unreachable from `pySub`. -/
def subGo (r : RE) : Nat → Nat → Nat → List Char → List Char
  | 0, _, _, s => s
  | fuel + 1, cnt, pos, s =>
    if cnt = 0 then s
    else
      match reFst (reFuel r s) r pos s (fun p t => some (p, t)) with
      | some (p, t) =>
        if pos < p then subGo r fuel (cnt - 1) p t
        else
          match s with
          | [] => []
          | c :: t2 => c :: subGo r fuel cnt (pos + 1) t2
      | none =>
        match s with
        | [] => []
        | c :: t2 => c :: subGo r fuel cnt (pos + 1) t2

/-- Embedding of `re.sub(r, "", s, count, re.IGNORECASE)`. -/
def pySub (r : RE) (cnt : Nat) (s : String) : String :=
  String.mk (subGo r (s.toList.length + 1) cnt 0 s.toList)

/-- Alternation of a list of branches, in source order. -/
def altList : List RE → RE
  | [] => .eps
  | [r] => r
  | r :: rs => .alt r (altList rs)

/-- Concatenation of a list of pieces, in source order. -/
def catList : List RE → RE
  | [] => .eps
  | [r] => r
  | r :: rs => .cat r (catList rs)

/-- Literal pattern word. -/
def W (s : String) : RE := .lit s.toList

/-- The `aWhisper` alternation of `transcribeMARK`. -/
def aWhisper : RE :=
  altList [W "Whisper", W "Wisper", W "Wyspę", W "Wysper", W "Wispa",
    W "Уіспер", W "Ου ίσπερ", W "위스퍼드", W "ウィスパー", W "विस्पर", W "विसपर"]

/-- The `aOk` alternation of `transcribeMARK`; the first branch is
`o[.]?k[.]?`. -/
def aOk : RE :=
  altList
    [catList [W "o", RE.opt (W "."), W "k", RE.opt (W ".")],
     W "okay", W "oké", W "okej", W "Окей", W "οκέι", W "окэй",
     W "オーケー", W "ओके"]

/-- The separator `aSep = [.,!? ]*`. -/
def aSep : RE := .star (.cls ['.', ',', '!', '?', ' '])

/-- The pattern fragment `" *"`. -/
def spacesRE : RE := .star (.cls [' '])

/-- The empty-sound test common to Mode 1 and Mode 2:
`^ *(aOk|aSep|aWhisper)*aWhisper(aOk|aSep|aWhisper)* *$`. -/
def emptySoundRE : RE :=
  catList [.bos, spacesRE, .star (altList [aOk, aSep, aWhisper]), aWhisper,
    .star (altList [aOk, aSep, aWhisper]), spacesRE, .eos]

/-- The Mode-1 confirmed-bracket test:
`^ *aWhisper aSep aOk aSep .* aOk aSep aWhisper aSep *$`. -/
def bracketRE1 : RE :=
  catList [.bos, spacesRE, aWhisper, aSep, aOk, aSep, .star .anyc,
    aOk, aSep, aWhisper, aSep, spacesRE, .eos]

/-- The Mode-1 cleaning pattern
`(^ *aWhisper aSep aOk aSep | aOk aSep aWhisper aSep *$)` used with
`re.sub(..., "", text, 2, re.IGNORECASE)`. -/
def cleanRE1 : RE :=
  .alt (catList [.bos, spacesRE, aWhisper, aSep, aOk, aSep])
    (catList [aOk, aSep, aWhisper, aSep, spacesRE, .eos])

/-- The Mode-2 confirmed-bracket test:
`^ *aOk aSep aWhisper aSep .* aWhisper aSep aOk aSep *$`. -/
def bracketRE2 : RE :=
  catList [.bos, spacesRE, aOk, aSep, aWhisper, aSep, .star .anyc,
    aWhisper, aSep, aOk, aSep, spacesRE, .eos]

/-- The Mode-2 cleaning pattern
`(^ *aOk aSep aWhisper aSep | aWhisper aSep aOk aSep *$)`. -/
def cleanRE2 : RE :=
  .alt (catList [.bos, spacesRE, aOk, aSep, aWhisper, aSep])
    (catList [aWhisper, aSep, aOk, aSep, spacesRE, .eos])

/-! ## Embedding of `transcribeMARK` (`src/transcribeHallu.py`)

The deployment imports FasterWhisper (`whisperFound = "FSTR"`), so the
FasterWhisper branch of the run loop is the one embedded.  The speech
backend is an oracle `bk : Nat → List BSeg` mapping the index of the
successive `model.transcribe` invocations to the segment list they return;
audio preprocessing (marker concatenation, compressor) only rewrites file
paths and is absorbed into the oracle. -/

/-- Embedding of `transcribeHallu.count_weird_words`. -/
def count_weird_words (text : String) : Nat :=
  pyCount "Hãy đăng ký kênh" text + pyCount "subscribe cho" text

/-- Modes of the hallucination guard: 0 = no markers, 1 = forward markers,
2 = reversed markers, 3 = SRT mode. -/
inductive Mode where
  | m0 | m1 | m2 | m3
deriving DecidableEq, Repr

/-- Word-level timestamps returned by the backend. -/
structure BWord where
  start : Rat
  stop : Rat
  word : String
deriving DecidableEq, Repr

/-- One segment returned by the backend (`model.transcribe`). -/
structure BSeg where
  start : Rat
  stop : Rat
  text : String
  words : List BWord
deriving DecidableEq, Repr

/-- Python `text.split()`: split on whitespace runs, dropping empties.
Fuel exceeds the input length in the `pySplit` wrapper. -/
def pySplitGo : Nat → List Char → List String
  | 0, _ => []
  | fuel + 1, s =>
    match s with
    | [] => []
    | c :: t =>
      if pyWS c then pySplitGo fuel t
      else
        String.mk ((c :: t).takeWhile (fun d => !pyWS d)) ::
          pySplitGo fuel ((c :: t).dropWhile (fun d => !pyWS d))

/-- Python `text.split()`. -/
def pySplit (s : String) : List String :=
  pySplitGo (s.toList.length + 1) s.toList

/-- Accumulator of the line-wrapping loop in `format_srt_text`. -/
structure WrapAcc where
  lines : List String
  current_line : List String
  current_length : Nat

/-- Embedding of the inner helper `format_srt_text` of `transcribeMARK`. -/
def format_srt_text (text : String) (max_width max_lines : Nat) : String :=
  let a :=
    (pySplit text).foldl
      (fun a word =>
        if max_width < a.current_length + word.length + 1 then
          ⟨a.lines ++ [joinSp a.current_line], [word], word.length⟩
        else
          ⟨a.lines, a.current_line ++ [word],
            a.current_length + word.length + 1⟩)
      (⟨[], [], 0⟩ : WrapAcc)
  let lines :=
    if a.current_line.isEmpty then a.lines else a.lines ++ [joinSp a.current_line]
  String.intercalate "\n" (lines.take max_lines)

/-- Two-digit zero padding of `%02d`. -/
def pad2 (n : Nat) : String :=
  if n < 10 then "0" ++ toString n else toString n

/-- Three-digit zero padding of the fractional part of `%06.3f`. -/
def pad3 (n : Nat) : String :=
  if n < 10 then "00" ++ toString n
  else if n < 100 then "0" ++ toString n
  else toString n

/-- Decimal rendering of `%06.3f` for a nonnegative number of seconds
given as the exact rational `n / d`: three decimals with half-up rounding
(which agrees with the float formatting on the timestamps used here), two
zero-padded integer digits.  `Int.fdiv (2000 * n + d) (2 * d)` is the
floor of `1000 * n / d + 1 / 2`; the computation stays on integers so the
kernel can evaluate it. -/
def fmtSecsND (n d : Int) : String :=
  let ms : Int := Int.fdiv (2000 * n + d) (2 * d)
  pad2 (ms.toNat / 1000) ++ "." ++ pad3 (ms.toNat % 1000)

/-- Embedding of `transcribeHallu.formatTimeStamp` (nonnegative input):
`aH = int(aT/3600)`, `aM = int((aT%3600)/60)`, `aS = aT%60`, rendered as
`"%02d:%02d:%06.3f"`.  The floors are computed on the numerator and
denominator of the exact rational. -/
def formatTimeStamp (aT : Rat) : String :=
  let n : Int := aT.num
  let d : Int := (aT.den : Int)
  let aH : Int := Int.fdiv n (3600 * d)
  let aM : Int := Int.fdiv (n - 3600 * aH * d) (60 * d)
  let aSn : Int := n - 60 * Int.fdiv n (60 * d) * d
  pad2 aH.toNat ++ ":" ++ pad2 aM.toNat ++ ":" ++ fmtSecsND aSn d

/-- One SRT entry of the Mode-3 branch:
`f"{n}\n{start} --> {end}\n{formatted}\n\n"`. -/
def srtEntry (i : Nat) (seg : BSeg) (w c : Nat) : String :=
  toString i ++ "\n" ++ formatTimeStamp seg.start ++ " --> "
    ++ formatTimeStamp seg.stop ++ "\n"
    ++ format_srt_text (stripS seg.text) w c ++ "\n\n"

/-- The `json_segment` dict built for each backend segment; word entries
are included exactly when `word_timestamps` is among the options. -/
def bsegToJ (wts : Bool) (seg : BSeg) : JSeg :=
  { start := seg.start
    stop := seg.stop
    sentence := stripS seg.text
    words :=
      if wts then seg.words.map (fun w => ⟨w.start, w.stop, stripS w.word⟩)
      else [] }

/-- State threaded through the `for r in range(nbRun)` loop:
`result["text"]`, `result["srt"]`, `result["json"]` and `multiRes`. -/
structure RunAcc where
  text : String
  srt : String
  json : List JSeg
  multi : String

/-- One iteration of the run loop (FasterWhisper branch).  `result["text"]`
accumulates across runs, and `multiRes` appends the accumulated text (not
the single run text) after the `"=====\n"` separator, exactly as the
source does. -/
def runStep (bk : Nat → List BSeg) (idx : Nat) (mode : Mode) (w c : Nat)
    (wts : Bool) (a : RunAcc) (r : Nat) : RunAcc :=
  let segs := bk (idx + r)
  let resSegs :=
    if mode = .m3 then segs.enum.map (fun p => srtEntry (p.1 + 1) p.2 w c)
    else segs.map (fun s => s.text)
  let text2 := a.text ++ String.join resSegs
  { text := text2
    srt := a.srt ++ (if mode = .m3 then String.join resSegs else "")
    json := a.json ++ segs.map (bsegToJ wts)
    multi := a.multi ++ (if 0 < r then "=====\n" else "") ++ text2 }

/-- The whole run loop: `nbRun` backend invocations starting at index
`idx`; when more than one run was requested the `multiRes` aggregation
replaces the text. -/
def runLoop (bk : Nat → List BSeg) (idx : Nat) (mode : Mode)
    (nbRun w c : Nat) (wts : Bool) : MResult × Nat :=
  let a := (List.range nbRun).foldl (runStep bk idx mode w c wts) ⟨"", "", [], ""⟩
  (⟨if 1 < nbRun then a.multi else a.text, a.srt, a.json⟩, idx + nbRun)

/-- The languages of `noMarkRE = "^(ar|he|ru|zh)$"`. -/
def noMarkLang (lng : String) : Bool :=
  lng = "ar" || lng = "he" || lng = "ru" || lng = "zh"

/-- The mode overrides applied at the top of `transcribeMARK`: right-to-left
or CJK language, then music content, each forcing Mode 0 unless in SRT
mode.  (The SM4T override cannot fire: this deployment loads
FasterWhisper.) -/
def effMode (lng : String) (isMusic : Bool) (mode : Mode) : Mode :=
  let m := if noMarkLang lng ∧ mode ≠ .m3 then .m0 else mode
  if isMusic ∧ m ≠ .m3 then .m0 else m

/-- Result of one `transcribeMARK` call: the returned dictionary, the next
free backend-invocation index, and the list of effective modes executed by
this call and its recursive calls, in order. -/
structure MOut where
  res : MResult
  next : Nat
  modes : List Mode
deriving DecidableEq, Repr

/-- Fueled embedding of `transcribeHallu.transcribeMARK`.  Recursive calls
pass only `path`, `opts`, `mode`, `lngInput` and `aLast`, so `isMusic`,
`nbRun` and the line-wrap limits revert to their defaults (False, 1, 80, 2)
exactly as in the source.  The fuel-0 branch is unreachable from the
`transcribeMARK` wrapper, whose fuel strictly exceeds the recursion
depth. -/
def transcribeMARKF (bk : Nat → List BSeg) :
    Nat → Nat → String → String → Mode → Option String → Bool → Nat → Nat →
    Nat → Bool → MOut
  | 0, idx, _, _, _, _, _, _, _, _, _ => ⟨emptyMR, idx, []⟩
  | fuel + 1, idx, lng, lngInput, mode, aLast, isMusic, nbRun, w, c, wts =>
    let eff := effMode lng isMusic mode
    let ri := runLoop bk idx eff nbRun w c wts
    let res := ri.1
    let idx2 := ri.2
    match eff with
    | .m0 => ⟨res, idx2, [.m0]⟩
    | .m3 => ⟨res, idx2, [.m3]⟩
    | .m1 =>
      let aCleaned := pySub cleanRE1 2 res.text
      if pyMatch emptySoundRE res.text then
        let o := transcribeMARKF bk fuel idx2 lng lngInput .m2 (some "") false 1 80 2 wts
        ⟨o.res, o.next, .m1 :: o.modes⟩
      else if pyMatch bracketRE1 res.text then
        ⟨{ res with text := aCleaned }, idx2, [.m1]⟩
      else
        let o := transcribeMARKF bk fuel idx2 lng lngInput .m2 (some aCleaned) false 1 80 2 wts
        ⟨o.res, o.next, .m1 :: o.modes⟩
    | .m2 =>
      let aCleaned := pySub cleanRE2 2 res.text
      if aLast = some aCleaned then
        ⟨{ res with text := aCleaned }, idx2, [.m2]⟩
      else if pyMatch emptySoundRE res.text then
        ⟨{ res with text := "" }, idx2, [.m2]⟩
      else if pyMatch bracketRE2 res.text then
        ⟨{ res with text := aCleaned }, idx2, [.m2]⟩
      else
        let o := transcribeMARKF bk fuel idx2 lng lngInput .m0 (some aCleaned) false 1 80 2 wts
        ⟨o.res, o.next, .m2 :: o.modes⟩

/-- Strictly decreasing rank of the 1 → 2 → 0 mode chain. -/
def modeRank : Mode → Nat
  | .m1 => 2
  | .m2 => 1
  | _ => 0

/-- Embedding of `transcribeHallu.transcribeMARK`: the fuel
`modeRank mode + 1` strictly exceeds the depth of the 1 → 2 → 0 recursion,
so the fuel-0 default of `transcribeMARKF` is never taken. -/
def transcribeMARK (bk : Nat → List BSeg) (idx : Nat) (lng lngInput : String)
    (mode : Mode) (aLast : Option String) (isMusic : Bool)
    (nbRun w c : Nat) (wts : Bool) : MOut :=
  transcribeMARKF bk (modeRank mode + 1) idx lng lngInput mode aLast isMusic
    nbRun w c wts

/-! ## Embedding of `transcribe_with_gladia` (`src/transcribeHallu.py`)

The HTTP layer is abstracted into typed oracles: one response per phase,
and a stream of poll responses.  A `requests` connection failure
(`RequestException`, caught by the outer handler) is the `exn`
constructor.  The function returns a JSON dump of its result dictionary;
the dump is kept structured as an `MResult`.  An uncaught Python exception
(the `IndexError` that `convert_gladia_to_internal_format` can raise on a
done response without subtitles) is `Except.error`. -/

/-- Upload-phase response: connection failure, or a status code together
with the `audio_url` of the parsed body (read only on the 200 path). -/
inductive UpResp where
  | exn
  | resp (status : Nat) (audio_url : String)
deriving DecidableEq, Repr

/-- Submit-phase response with the `result_url` of the parsed body. -/
inductive SubResp where
  | exn
  | resp (status : Nat) (result_url : String)
deriving DecidableEq, Repr

/-- Poll response: status code, the `status` field of the body, and the
`result` object handed to the converter. -/
inductive PollResp where
  | exn
  | resp (status : Nat) (statusStr : String) (result : GRes)
deriving DecidableEq, Repr

/-- A poll response that ends the loop successfully: 2xx status code of the
accepted set and body status `done`. -/
def isDonePoll : PollResp → Bool
  | .resp st s _ => (st = 200 || st = 201) && s = "done"
  | .exn => false

/-- The polling loop with Fibonacci backoff: `total` is
`total_wait_time`, `a` the next `fib` value and `b` its successor; the
budget is 300 seconds.  Waits are at least 1 s, so at most 300 iterations
run and the fuel 301 supplied by `transcribe_with_gladia` never reaches
the (empty-result) fuel-0 branch. -/
def pollLoop (poll : Nat → PollResp) :
    Nat → Nat → Nat → Nat → Nat → Except String MResult
  | 0, _, _, _, _ => .ok emptyMR
  | fuel + 1, i, total, a, b =>
    if total < 300 then
      match poll i with
      | .exn => .ok emptyMR
      | .resp st sstr body =>
        if st = 200 ∨ st = 201 then
          if sstr = "done" then convert_gladia_to_internal_format body
          else pollLoop poll fuel (i + 1) (total + a) b (a + b)
        else .ok emptyMR
    else .ok emptyMR

/-- Embedding of `transcribeHallu.transcribe_with_gladia`: missing API key
or failure of the upload (status other than 200), submit (status other
than 200/201) or poll (status other than 200/201, connection error, or
300-second budget exhausted) phases yields the canonical empty result; a
done poll response hands its body to the converter, whose `IndexError`
propagates out uncaught. -/
def transcribe_with_gladia (hasKey : Bool) (up : UpResp) (sub : SubResp)
    (poll : Nat → PollResp) : Except String MResult :=
  if !hasKey then .ok emptyMR
  else
    match up with
    | .exn => .ok emptyMR
    | .resp st _ =>
      if st ≠ 200 then .ok emptyMR
      else
        match sub with
        | .exn => .ok emptyMR
        | .resp st2 _ =>
          if st2 = 200 ∨ st2 = 201 then pollLoop poll 301 0 0 1 1
          else .ok emptyMR

/-! ## Embedding of `transcribeOpts` (`src/transcribeHallu.py`)

Audio preprocessing only produces files (`pathClean`, `pathNoCut`,
`pathREMIXN`, the silence-cut `pathIn`); the embedding keeps them as tags
recorded in the call trace, while the backend oracle is indexed by
invocation order.  The probed duration is an input (`getDuration` result
of the second probe); `silcutInPathIn` models the substring test
`"SILCUT" not in pathIn`.  In the source `pathREMIXN` is a string whenever
line 418 is reached, so the `pathREMIXN is not None` guard is embedded as
always true. -/

/-- The audio variants that appear as `transcribeMARK` /
`transcribe_with_gladia` arguments. -/
inductive PathTag where
  | pIn | pRemix | pNoCut | pClean
deriving DecidableEq, Repr

/-- One backend-facing call made by `transcribeOpts`: a `transcribeMARK`
call (with the effective modes it executed) or a remote
`transcribe_with_gladia` call. -/
inductive CallRec where
  | mark (tag : PathTag) (modes : List Mode)
  | gladiaCall (tag : PathTag)
deriving DecidableEq, Repr

/-- The effective modes recorded on a call. -/
def CallRec.recModes : CallRec → List Mode
  | .mark _ ms => ms
  | .gladiaCall _ => []

/-- Inputs of one `transcribeOpts` request. -/
structure TOpts where
  duration : Option Int
  maxDuration : Int
  lng : String
  lngInput : String
  isMusic : Bool
  onlySRT : Bool
  addSRT : Bool
  nbRun : Nat
  wts : Bool
  silcutInPathIn : Bool
  w : Nat
  c : Nat

/-- Return value of `transcribeOpts`: the raw `"[Too long (..s)]"` string,
or the JSON dump of the result dictionary (kept structured). -/
inductive TOut where
  | raw (s : String)
  | res (r : MResult)
deriving DecidableEq, Repr

/-- The module constant `whisperVersion = "-v2"`. -/
def whisperVersion : String := "-v2"

/-- The weird-word remediation cascade (`transcribeOpts` lines 412-462):
first SRT attempt on the remixed audio, then — for Vietnamese input with
spam count above the threshold 2 — escalation to the uncut audio, the
silence-cut audio (reusing the previous result when `pathIn` already went
through SILCUT), the remote API, and the clean audio.  Each escalation
step runs iff the previous attempt counted above the threshold, and the
retained result is replaced iff the new count is strictly below the
immediately preceding attempt's count.  Returns the retained result, the
next backend index and the call trace. -/
def weirdCascade (bk : Nat → List BSeg) (gl : MResult) (o : TOpts)
    (idx : Nat) : MResult × Nat × List CallRec :=
  let a1 := transcribeMARK bk idx o.lng o.lngInput .m3 none o.isMusic o.nbRun o.w o.c o.wts
  let c1 := count_weird_words a1.res.srt
  if lowerS o.lngInput = "vi" ∧ 2 < c1 then
    let a2 := transcribeMARK bk a1.next o.lng o.lngInput .m3 none o.isMusic o.nbRun o.w o.c o.wts
    let c2 := count_weird_words a2.res.srt
    let sel2 := if c2 < c1 then a2.res else a1.res
    if 2 < c2 then
      let a3 :=
        if ¬ o.silcutInPathIn then
          let m := transcribeMARK bk a2.next o.lng o.lngInput .m3 none o.isMusic o.nbRun o.w o.c o.wts
          (m.res, m.next, [CallRec.mark .pIn m.modes])
        else
          (a2.res, a2.next, [])
      let c3 := count_weird_words a3.1.srt
      let sel3 := if c3 < c2 then a3.1 else sel2
      if 2 < c3 then
        let gtag := if ¬ o.silcutInPathIn then PathTag.pIn else PathTag.pRemix
        let c4 := count_weird_words gl.text
        let sel4 := if c4 < c3 then gl else sel3
        if 2 < c4 then
          let a5 := transcribeMARK bk a3.2.1 o.lng o.lngInput .m3 none o.isMusic o.nbRun o.w o.c o.wts
          let c5 := count_weird_words a5.res.srt
          let sel5 := if c5 < c4 then a5.res else sel4
          (sel5, a5.next,
            [CallRec.mark .pRemix a1.modes, CallRec.mark .pNoCut a2.modes]
              ++ a3.2.2 ++ [CallRec.gladiaCall gtag, CallRec.mark .pClean a5.modes])
        else
          (sel4, a3.2.1,
            [CallRec.mark .pRemix a1.modes, CallRec.mark .pNoCut a2.modes]
              ++ a3.2.2 ++ [CallRec.gladiaCall gtag])
      else
        (sel3, a3.2.1,
          [CallRec.mark .pRemix a1.modes, CallRec.mark .pNoCut a2.modes] ++ a3.2.2)
    else
      (sel2, a2.next,
        [CallRec.mark .pRemix a1.modes, CallRec.mark .pNoCut a2.modes])
  else
    (a1.res, a1.next, [CallRec.mark .pRemix a1.modes])

/-- Embedding of `transcribeHallu.transcribeOpts` from the duration cap
check on (the preprocessing stages preceding it only produce files).
`gl` is the parsed result of the single possible
`transcribe_with_gladia` call.  A missing probed duration makes the cap
comparison raise inside its `try` (swallowed) and then the uncaught
`duration > 30` comparison at line 398 raise, modelled as `Except.error`. -/
def transcribeOpts (bk : Nat → List BSeg) (gl : MResult) (o : TOpts) :
    Except String (TOut × List CallRec) :=
  match o.duration with
  | none => .error "TypeError: NoneType and int are not comparable"
  | some d =>
    if o.maxDuration < d then
      .ok (.raw ("[Too long (" ++ toString d ++ "s)]"), [])
    else
      let mode := if 30 < d then Mode.m0 else Mode.m1
      let s1 :=
        if o.onlySRT then ((⟨"", "", []⟩ : MResult), 0, ([] : List CallRec))
        else
          let m := transcribeMARK bk 0 o.lng o.lngInput mode none o.isMusic o.nbRun o.w o.c o.wts
          let t := if m.res.text.length = 0 then "--" else m.res.text
          ({ m.res with text := t }, m.next, [CallRec.mark .pIn m.modes])
      let s2 :=
        if o.onlySRT ∨ o.addSRT then
          if o.isMusic ∧ whisperVersion ≠ "-v3" then
            let k := weirdCascade bk gl o s1.2.1
            ((⟨k.1.text, k.1.srt, k.1.json⟩ : MResult), k.2.2)
          else
            let m := transcribeMARK bk s1.2.1 o.lng o.lngInput .m3 none o.isMusic o.nbRun o.w o.c o.wts
            ((⟨m.res.text, m.res.srt, m.res.json⟩ : MResult),
              [CallRec.mark .pNoCut m.modes])
        else
          ((⟨s1.1.text, "", s1.1.json⟩ : MResult), ([] : List CallRec))
      .ok (.res { s2.1 with json := split_transcription s2.1.json },
        s1.2.2 ++ s2.2)

/-- Call trace of a `transcribeOpts` outcome (empty on the error path). -/
def traceOf (e : Except String (TOut × List CallRec)) : List CallRec :=
  match e with
  | .ok (_, t) => t
  | .error _ => []

/-- Backend for the C7 evaluation: the first run yields text `A`, the
second `B`. -/
def bkC7 : Nat → List BSeg := fun i =>
  if i = 0 then [⟨0, 0, "A", []⟩] else [⟨0, 0, "B", []⟩]

/-- The possible effective-mode traces of a `transcribeMARK` call entered
with the given mode (the empty trace only arises from exhausted fuel,
which the wrapper rules out).  A `[.m0]` trace for a marker mode occurs
exactly under the language/music override. -/
def modesOk (l : String) (mu : Bool) (mode : Mode) (ms : List Mode) : Prop :=
  match mode with
  | .m0 => ms = [] ∨ ms = [.m0]
  | .m3 => ms = [] ∨ ms = [.m3]
  | .m2 =>
    ms = [] ∨ ((noMarkLang l || mu) = true ∧ ms = [.m0]) ∨
      ((noMarkLang l || mu) = false ∧ (ms = [.m2] ∨ ms = [.m2, .m0]))
  | .m1 =>
    ms = [] ∨ ((noMarkLang l || mu) = true ∧ ms = [.m0]) ∨
      ((noMarkLang l || mu) = false ∧
        (ms = [.m1] ∨ ms = [.m1, .m2] ∨ ms = [.m1, .m2, .m0]))

/-- Backend for the C1 counterexample: every call transcribes to the
marker-only phrase, which satisfies the bracket pattern *and* the
empty-sound pattern. -/
def bkC1 : Nat → List BSeg := fun _ => [⟨0, 0, "Whisper, Ok. Ok, Whisper.", []⟩]

/-- Backend for the C1 witness: a properly bracketed output around real
content. -/
def bkC1w : Nat → List BSeg := fun _ =>
  [⟨0, 0, "Whisper, Ok. Hello there. Ok, Whisper.", []⟩]

/-- A Gladia `result` body whose transcription section has no subtitle
blocks (used for the C3 counterexample and witness). -/
def gResNoSubs : GRes := ⟨⟨[], "", []⟩, ⟨[]⟩⟩

/-- A Gladia body with a non-empty requested translation section and a
subtitle-less transcription section (C6 counterexample input). -/
def gC6 : GRes :=
  ⟨⟨[], "ORIG", []⟩, ⟨[⟨[⟨0, 1, "hello", []⟩], "TRANSLATED", [⟨"TSRT"⟩]⟩]⟩⟩

/-- Input for the C6 witness: one utterance with one word and two subtitle
blocks in the transcription section. -/
def gC6w : GRes :=
  ⟨⟨[⟨0, 1, " hi ", [⟨0, 1, " h "⟩]⟩], "FT", [⟨"SRT1"⟩, ⟨"SRT2"⟩]⟩, ⟨[]⟩⟩

/-- Modelled from the amended claim: the escalation reducer.  While the
latest attempt's count exceeds the threshold 2, take the next attempt from
the chain; the retained candidate is replaced exactly when the new
attempt's count is strictly lower than the immediately preceding
attempt's count (not the retained best). -/
def escalateSpec : MResult → Nat → List (MResult × Nat) → MResult
  | sel, _, [] => sel
  | sel, prev, (r, cnt) :: rest =>
    if prev ≤ 2 then sel
    else escalateSpec (if cnt < prev then r else sel) cnt rest

/-- First cascade attempt (remixed stems, Mode 3). -/
def casc1 (bk : Nat → List BSeg) (o : TOpts) (idx : Nat) : MOut :=
  transcribeMARK bk idx o.lng o.lngInput .m3 none o.isMusic o.nbRun o.w o.c o.wts

/-- Second cascade attempt (uncut audio). -/
def casc2 (bk : Nat → List BSeg) (o : TOpts) (idx : Nat) : MOut :=
  transcribeMARK bk (casc1 bk o idx).next o.lng o.lngInput .m3 none o.isMusic
    o.nbRun o.w o.c o.wts

/-- Third cascade attempt when a fresh call is made (silence-cut audio). -/
def casc3 (bk : Nat → List BSeg) (o : TOpts) (idx : Nat) : MOut :=
  transcribeMARK bk (casc2 bk o idx).next o.lng o.lngInput .m3 none o.isMusic
    o.nbRun o.w o.c o.wts

/-- Result of the third escalation step: a fresh call on the silence-cut
audio, or a reuse of the second attempt when `pathIn` already went through
SILCUT. -/
def casc3res (bk : Nat → List BSeg) (o : TOpts) (idx : Nat) : MResult :=
  if ¬ o.silcutInPathIn then (casc3 bk o idx).res else (casc2 bk o idx).res

/-- Next backend index after the third escalation step. -/
def casc3next (bk : Nat → List BSeg) (o : TOpts) (idx : Nat) : Nat :=
  if ¬ o.silcutInPathIn then (casc3 bk o idx).next else (casc2 bk o idx).next

/-- Fifth cascade attempt (clean audio). -/
def casc5 (bk : Nat → List BSeg) (o : TOpts) (idx : Nat) : MOut :=
  transcribeMARK bk (casc3next bk o idx) o.lng o.lngInput .m3 none o.isMusic
    o.nbRun o.w o.c o.wts

/-- A backend segment carrying exactly one denylisted spam phrase. -/
def spamSeg : BSeg := ⟨0, 0, "subscribe cho", []⟩

/-- Backend for the C2 scenario: attempt 1 counts 5 spam phrases, attempt
2 counts 3 (and is reused as attempt 3 because `pathIn` went through
SILCUT). -/
def bkC2y : Nat → List BSeg := fun i =>
  if i = 0 then List.replicate 5 spamSeg else List.replicate 3 spamSeg

/-- Remote result for the C2 scenario: spam-free (count 0). -/
def glC2y : MResult := ⟨"clean text", "G", []⟩

/-- Options for the C2 scenario: Vietnamese music SRT request whose
`pathIn` contains `SILCUT`. -/
def oC2y : TOpts := ⟨some 10, 600, "en", "vi", true, true, false, 1, true, true, 80, 2⟩

/-- Backend for the C2 counterexample: attempt counts 5, 3, 9, then (after
the remote attempt) 7. -/
def bkC2x : Nat → List BSeg := fun i =>
  if i = 0 then List.replicate 5 spamSeg
  else if i = 1 then List.replicate 3 spamSeg
  else if i = 2 then List.replicate 9 spamSeg
  else List.replicate 7 spamSeg

/-- Remote result for the C2 counterexample, with spam count 4. -/
def glC2x : MResult :=
  ⟨"subscribe cho subscribe cho subscribe cho subscribe cho", "G", []⟩

/-- Options for the C2 counterexample: Vietnamese music SRT request whose
`pathIn` does not contain `SILCUT`. -/
def oC2x : TOpts := ⟨some 10, 600, "en", "vi", true, true, false, 1, true, false, 80, 2⟩

/-- Backend for the C9 witness. -/
def bkC9 : Nat → List BSeg := fun _ => [⟨0, 0, "some text", []⟩]

/-- Backend for the C10 witness: the single Mode-0 run returns no
segments, so the guard loop yields empty text. -/
def bkC10 : Nat → List BSeg := fun _ => []

/-- Concatenation of a list of strings, in order. -/
def concatS : List String → String
  | [] => ""
  | x :: xs => x ++ concatS xs

/-- Concatenated sentence texts of a segment list. -/
def segsText (l : List JSeg) : String :=
  concatS (l.map (fun s => s.sentence))

/-- Concatenated word texts of a word list. -/
def wordsText (ws : List JWord) : String :=
  concatS (ws.map (fun w => w.text))

/-- Modelled from the amended claim: the text one input item contributes
after segmentation — nothing for a spam-cleared item, its word texts for
a split item, its sentence for a pass-through item. -/
def itemContribution (it : JSeg) : String :=
  if contains_weird_words it.sentence then ""
  else if hasPunct it.sentence then wordsText it.words
  else it.sentence

/-- Input for the C5 counterexample: a pass-through segment with reversed
times, a split segment whose sentence text differs from its word texts,
and a spam segment whose text is cleared. -/
def cexC5 : List JSeg :=
  [⟨5, 1, "hi", []⟩,
   ⟨0, 1, "Hello, world", [⟨0, 1, "a,"⟩, ⟨1, 2, "b"⟩, ⟨2, 3, "c"⟩]⟩,
   ⟨1, 2, "subscribe cho now.",
     [⟨1, 1, "subscribe"⟩, ⟨1, 2, "cho"⟩, ⟨2, 2, "now."⟩]⟩]

/-- Input for the C5 witness: one splittable segment and one pass-through
segment. -/
def wlC5 : List JSeg :=
  [⟨0, 4, "a, b c. tail", [⟨0, 1, "a,"⟩, ⟨1, 2, "b"⟩, ⟨2, 4, "c."⟩, ⟨4, 4, "tail"⟩]⟩,
   ⟨4, 5, "after", []⟩]

end WH

namespace WH

/-! ## Claim theorems -/

set_option maxRecDepth 40000

/-- Claim C4: when the probed duration exceeds the configured cap,
`transcribeOpts` returns the literal string `"[Too long (<duration>s)]"`
as the entire result, with an empty call trace — no transcription call is
performed. -/
theorem C4_too_long (bk : Nat → List BSeg) (gl : MResult) (o : TOpts)
    (d : Int) (hd : o.duration = some d) (h : o.maxDuration < d) :
    transcribeOpts bk gl o =
      .ok (.raw ("[Too long (" ++ toString d ++ "s)]"), []) := by
  simp only [transcribeOpts, hd]
  rw [if_pos h]

/-- Witness for C4: a 601-second input against the default 600-second cap
yields exactly the string of the spec example and no backend call. -/
theorem C4_too_long_witness :
    transcribeOpts (fun _ => []) emptyMR
        ⟨some 601, 600, "en", "en", false, false, false, 1, true, true, 80, 2⟩ =
      .ok (.raw "[Too long (601s)]", []) := by
  have h := C4_too_long (fun _ => []) emptyMR
    ⟨some 601, 600, "en", "en", false, false, false, 1, true, true, 80, 2⟩
    601 rfl (by decide)
  have hs : ("[Too long (" ++ toString (601 : Int) ++ "s)]") = "[Too long (601s)]" := by
    decide
  rw [hs] at h
  exact h

/-- Claim C7 (code bug): with `nbRun = 2` and runs producing `A` then `B`,
the returned text is `A=====\nAB` — the segment-separated aggregation
appends the *accumulated* text after each separator, so the first run's
text appears twice instead of each run's text appearing exactly once. -/
theorem C7_run_concatenation :
    (transcribeMARK bkC7 0 "en" "en" .m0 none false 2 80 2 true).res.text
        = "A=====\nAB" ∧
    pyCount "A"
        ((transcribeMARK bkC7 0 "en" "en" .m0 none false 2 80 2 true).res.text)
        = 2 ∧
    "A=====\nAB" ≠ "A" ++ "=====\n" ++ "B" := by
  exact ⟨by decide, by decide, by decide⟩

/-- Claim C10: on the non-SRT path the returned text field is never the
empty string, and when the hallucination-guard loop returns empty text it
is the literal `"--"` sentinel. -/
theorem C10_empty_text_sentinel (bk : Nat → List BSeg) (gl : MResult)
    (o : TOpts) (d : Int) (hd : o.duration = some d)
    (hmax : d ≤ o.maxDuration) (h1 : o.onlySRT = false)
    (h2 : o.addSRT = false) :
    (∀ r tr, transcribeOpts bk gl o = .ok (.res r, tr) → r.text ≠ "") ∧
    ((transcribeMARK bk 0 o.lng o.lngInput (if 30 < d then Mode.m0 else Mode.m1)
        none o.isMusic o.nbRun o.w o.c o.wts).res.text = "" →
      ∀ r tr, transcribeOpts bk gl o = .ok (.res r, tr) → r.text = "--") := by
  have hng : ¬ o.maxDuration < d := not_lt.mpr hmax
  generalize hM : transcribeMARK bk 0 o.lng o.lngInput
    (if 30 < d then Mode.m0 else Mode.m1) none o.isMusic o.nbRun o.w o.c o.wts = M
  have e : transcribeOpts bk gl o =
      Except.ok (TOut.res
        { text := if M.res.text.length = 0 then "--" else M.res.text
          srt := ""
          json := split_transcription M.res.json },
        [CallRec.mark .pIn M.modes]) := by
    simp only [transcribeOpts, hd, hng, h1, h2, hM, Bool.false_eq_true, or_self,
      if_false, ite_false, List.nil_append, List.append_nil, if_neg]
  constructor
  · intro r tr h
    rw [e] at h
    cases h
    by_cases hz : M.res.text.length = 0
    · simp only [hz, ite_true]
      decide
    · simp only [hz, ite_false]
      intro habs
      exact hz (by rw [habs]; rfl)
  · intro hempty r tr h
    rw [e] at h
    cases h
    have hz : M.res.text.length = 0 := by rw [hempty]; rfl
    simp only [hz, ite_true]

/-- The first `transcribeMARK` override leaves Mode 0 unchanged. -/
theorem effMode_m0 (l : String) (mu : Bool) : effMode l mu .m0 = .m0 := by
  simp [effMode]

/-- The overrides never touch Mode 3 (SRT mode). -/
theorem effMode_m3 (l : String) (mu : Bool) : effMode l mu .m3 = .m3 := by
  simp [effMode]

/-- A no-marker language or music content forces Mode 2 down to Mode 0. -/
theorem effMode_m2_force (l : String) (mu : Bool)
    (h : (noMarkLang l || mu) = true) : effMode l mu .m2 = .m0 := by
  simp only [effMode]
  split_ifs <;> simp_all

/-- Without the overrides Mode 2 stays Mode 2. -/
theorem effMode_m2_keep (l : String) (mu : Bool)
    (h : (noMarkLang l || mu) = false) : effMode l mu .m2 = .m2 := by
  simp only [effMode]
  split_ifs <;> simp_all

/-- A no-marker language or music content forces Mode 1 down to Mode 0. -/
theorem effMode_m1_force (l : String) (mu : Bool)
    (h : (noMarkLang l || mu) = true) : effMode l mu .m1 = .m0 := by
  simp only [effMode]
  split_ifs <;> simp_all

/-- Without the overrides Mode 1 stays Mode 1. -/
theorem effMode_m1_keep (l : String) (mu : Bool)
    (h : (noMarkLang l || mu) = false) : effMode l mu .m1 = .m1 := by
  simp only [effMode]
  split_ifs <;> simp_all

/-- The trace invariant of the fueled guard loop, by induction on fuel:
Mode 1 recurses only into Mode 2, Mode 2 only into Mode 0, and Modes 0 and
3 never recurse. -/
theorem modes_markF_ok (bk : Nat → List BSeg) :
    ∀ (fuel idx : Nat) (l li : String) (mode : Mode) (aLast : Option String)
      (mu : Bool) (nb w c : Nat) (wts : Bool),
      modesOk l mu mode
        (transcribeMARKF bk fuel idx l li mode aLast mu nb w c wts).modes := by
  intro fuel
  induction fuel with
  | zero =>
    intro idx l li mode aLast mu nb w c wts
    cases mode <;> exact Or.inl rfl
  | succ f ih =>
    intro idx l li mode aLast mu nb w c wts
    cases mode
    case m0 =>
      refine Or.inr ?_
      simp [transcribeMARKF, effMode_m0]
    case m3 =>
      refine Or.inr ?_
      simp [transcribeMARKF, effMode_m3]
    case m2 =>
      by_cases hc : (noMarkLang l || mu) = true
      · refine Or.inr (Or.inl ⟨hc, ?_⟩)
        simp [transcribeMARKF, effMode_m2_force l mu hc]
      · have hc' : (noMarkLang l || mu) = false := by
          simpa using hc
        refine Or.inr (Or.inr ⟨hc', ?_⟩)
        have hms :
            (transcribeMARKF bk (f + 1) idx l li .m2 aLast mu nb w c wts).modes
              = [.m2] ∨
            (transcribeMARKF bk (f + 1) idx l li .m2 aLast mu nb w c wts).modes
              = .m2 :: (transcribeMARKF bk f
                  ((runLoop bk idx .m2 nb w c wts).2) l li .m0
                  (some (pySub cleanRE2 2 (runLoop bk idx .m2 nb w c wts).1.text))
                  false 1 80 2 wts).modes := by
          simp only [transcribeMARKF, effMode_m2_keep l mu hc']
          split
          · exact Or.inl rfl
          · split
            · exact Or.inl rfl
            · split
              · exact Or.inl rfl
              · exact Or.inr rfl
        rcases hms with h | h
        · exact Or.inl h
        · rcases ih ((runLoop bk idx .m2 nb w c wts).2) l li .m0
              (some (pySub cleanRE2 2 (runLoop bk idx .m2 nb w c wts).1.text))
              false 1 80 2 wts with h0 | h0 <;> rw [h, h0]
          · exact Or.inl rfl
          · exact Or.inr rfl
    case m1 =>
      by_cases hc : (noMarkLang l || mu) = true
      · refine Or.inr (Or.inl ⟨hc, ?_⟩)
        simp [transcribeMARKF, effMode_m1_force l mu hc]
      · have hc' : (noMarkLang l || mu) = false := by
          simpa using hc
        have hcL : noMarkLang l = false := by
          rcases Bool.or_eq_false_iff.mp hc' with ⟨h1, _⟩
          exact h1
        have hrec : ∀ aC : Option String,
            modesOk l false .m2
              (transcribeMARKF bk f ((runLoop bk idx .m1 nb w c wts).2) l li .m2
                aC false 1 80 2 wts).modes →
            (transcribeMARKF bk f ((runLoop bk idx .m1 nb w c wts).2) l li .m2
                aC false 1 80 2 wts).modes = [] ∨
            (transcribeMARKF bk f ((runLoop bk idx .m1 nb w c wts).2) l li .m2
                aC false 1 80 2 wts).modes = [.m2] ∨
            (transcribeMARKF bk f ((runLoop bk idx .m1 nb w c wts).2) l li .m2
                aC false 1 80 2 wts).modes = [.m2, .m0] := by
          intro aC h
          simp only [modesOk, hcL, Bool.or_self] at h
          rcases h with h | h | h
          · exact Or.inl h
          · exact absurd h.1 (by simp)
          · exact Or.inr h.2
        refine Or.inr (Or.inr ⟨hc', ?_⟩)
        have hms :
            (transcribeMARKF bk (f + 1) idx l li .m1 aLast mu nb w c wts).modes
              = [.m1] ∨
            (∃ aC, (transcribeMARKF bk (f + 1) idx l li .m1 aLast mu nb w c wts).modes
              = .m1 :: (transcribeMARKF bk f
                  ((runLoop bk idx .m1 nb w c wts).2) l li .m2 aC
                  false 1 80 2 wts).modes) := by
          simp only [transcribeMARKF, effMode_m1_keep l mu hc']
          split
          · exact Or.inr ⟨some "", rfl⟩
          · split
            · exact Or.inl rfl
            · exact Or.inr
                ⟨some (pySub cleanRE1 2 (runLoop bk idx .m1 nb w c wts).1.text), rfl⟩
        rcases hms with h | ⟨aC, h⟩
        · exact Or.inl h
        · rcases hrec aC (ih ((runLoop bk idx .m1 nb w c wts).2) l li .m2 aC
              false 1 80 2 wts) with h0 | h0 | h0 <;> rw [h, h0]
          · exact Or.inl rfl
          · exact Or.inr (Or.inl rfl)
          · exact Or.inr (Or.inr rfl)

/-- Claim C8: the hallucination-guard state machine moves strictly forward
(every adjacent pair of executed modes is 1 followed by 2, or 2 followed
by 0), and the number of `transcribeMARK` activations is at most 3 for
every input. -/
theorem C8_modes_forward (bk : Nat → List BSeg) (idx : Nat) (lng lngInput : String)
    (mode : Mode) (aLast : Option String) (isMusic : Bool) (nbRun w c : Nat)
    (wts : Bool) :
    List.Chain'
        (fun a b => (a = Mode.m1 ∧ b = Mode.m2) ∨ (a = Mode.m2 ∧ b = Mode.m0))
        (transcribeMARK bk idx lng lngInput mode aLast isMusic nbRun w c wts).modes ∧
    (transcribeMARK bk idx lng lngInput mode aLast isMusic nbRun w c wts).modes.length ≤ 3 := by
  have h := modes_markF_ok bk (modeRank mode + 1) idx lng lngInput mode aLast
    isMusic nbRun w c wts
  rw [transcribeMARK]
  cases mode <;> simp only [modesOk] at h
  case m0 =>
    rcases h with h | h <;> rw [h]
    · exact ⟨List.chain'_nil, by decide⟩
    · exact ⟨List.chain'_singleton _, by decide⟩
  case m3 =>
    rcases h with h | h <;> rw [h]
    · exact ⟨List.chain'_nil, by decide⟩
    · exact ⟨List.chain'_singleton _, by decide⟩
  case m2 =>
    rcases h with h | ⟨_, h⟩ | ⟨_, h | h⟩ <;> rw [h]
    · exact ⟨List.chain'_nil, by decide⟩
    · exact ⟨List.chain'_singleton _, by decide⟩
    · exact ⟨List.chain'_singleton _, by decide⟩
    · exact ⟨List.chain'_pair.mpr (Or.inr ⟨rfl, rfl⟩), by decide⟩
  case m1 =>
    rcases h with h | ⟨_, h⟩ | ⟨_, h | h | h⟩ <;> rw [h]
    · exact ⟨List.chain'_nil, by decide⟩
    · exact ⟨List.chain'_singleton _, by decide⟩
    · exact ⟨List.chain'_singleton _, by decide⟩
    · exact ⟨List.chain'_pair.mpr (Or.inl ⟨rfl, rfl⟩), by decide⟩
    · refine ⟨List.chain'_cons.mpr ⟨Or.inl ⟨rfl, rfl⟩,
        List.chain'_pair.mpr (Or.inr ⟨rfl, rfl⟩)⟩, by decide⟩

/-- The next free backend index never moves backwards. -/
theorem le_next_markF (bk : Nat → List BSeg) :
    ∀ (fuel idx : Nat) (l li : String) (mode : Mode) (aLast : Option String)
      (mu : Bool) (nb w c : Nat) (wts : Bool),
      idx ≤ (transcribeMARKF bk fuel idx l li mode aLast mu nb w c wts).next := by
  intro fuel
  induction fuel with
  | zero =>
    intro idx _ _ _ _ _ _ _ _ _
    exact Nat.le_refl idx
  | succ f ih =>
    intro idx l li mode aLast mu nb w c wts
    rcases heff : effMode l mu mode with _ | _ | _ | _
    case m0 =>
      simp only [transcribeMARKF, heff]
      exact Nat.le_add_right idx nb
    case m3 =>
      simp only [transcribeMARKF, heff]
      exact Nat.le_add_right idx nb
    case m1 =>
      simp only [transcribeMARKF, heff]
      split
      · exact le_trans (Nat.le_add_right idx nb) (ih _ _ _ _ _ _ _ _ _ _)
      · split
        · exact Nat.le_add_right idx nb
        · exact le_trans (Nat.le_add_right idx nb) (ih _ _ _ _ _ _ _ _ _ _)
    case m2 =>
      simp only [transcribeMARKF, heff]
      split
      · exact Nat.le_add_right idx nb
      · split
        · exact Nat.le_add_right idx nb
        · split
          · exact Nat.le_add_right idx nb
          · exact le_trans (Nat.le_add_right idx nb) (ih _ _ _ _ _ _ _ _ _ _)

/-- A call with remaining fuel consumes at least its own `nbRun` backend
invocations. -/
theorem next_markF_succ_ge (bk : Nat → List BSeg) (f idx : Nat) (l li : String)
    (mode : Mode) (aLast : Option String) (mu : Bool) (nb w c : Nat)
    (wts : Bool) :
    idx + nb ≤ (transcribeMARKF bk (f + 1) idx l li mode aLast mu nb w c wts).next := by
  rcases heff : effMode l mu mode with _ | _ | _ | _
  case m0 =>
    simp only [transcribeMARKF, heff]
    exact Nat.le_refl _
  case m3 =>
    simp only [transcribeMARKF, heff]
    exact Nat.le_refl _
  case m1 =>
    simp only [transcribeMARKF, heff]
    split
    · exact le_next_markF bk f _ _ _ _ _ _ _ _ _ _
    · split
      · exact Nat.le_refl _
      · exact le_next_markF bk f _ _ _ _ _ _ _ _ _ _
  case m2 =>
    simp only [transcribeMARKF, heff]
    split
    · exact Nat.le_refl _
    · split
      · exact Nat.le_refl _
      · split
        · exact Nat.le_refl _
        · exact le_next_markF bk f _ _ _ _ _ _ _ _ _ _

/-- A call with remaining fuel records at least its own effective mode. -/
theorem modes_markF_ne_nil (bk : Nat → List BSeg) (f idx : Nat) (l li : String)
    (mode : Mode) (aLast : Option String) (mu : Bool) (nb w c : Nat)
    (wts : Bool) :
    (transcribeMARKF bk (f + 1) idx l li mode aLast mu nb w c wts).modes ≠ [] := by
  rcases heff : effMode l mu mode with _ | _ | _ | _ <;>
    simp only [transcribeMARKF, heff] <;> (try split_ifs) <;> simp

/-- Claim C1 (amended): with markers active (no language/music override),
Mode 1 terminates without a second backend call exactly when its output
passes the confirmed-bracket test *and* is not entirely marker-phrase
content; in that case the stripped text is returned.  When the output is
all marker content — even if it also satisfies the bracket pattern — or
fails the bracket test, a Mode-2 transition (a second backend call)
happens. -/
theorem C1_mode1_transition (bk : Nat → List BSeg) (idx : Nat)
    (lng lngInput : String) (nbRun w c : Nat) (wts : Bool)
    (hL : noMarkLang lng = false) :
    ((transcribeMARK bk idx lng lngInput .m1 none false nbRun w c wts).modes = [.m1]
      ↔ (pyMatch emptySoundRE (runLoop bk idx .m1 nbRun w c wts).1.text = false ∧
         pyMatch bracketRE1 (runLoop bk idx .m1 nbRun w c wts).1.text = true)) ∧
    (pyMatch emptySoundRE (runLoop bk idx .m1 nbRun w c wts).1.text = false →
      pyMatch bracketRE1 (runLoop bk idx .m1 nbRun w c wts).1.text = true →
      transcribeMARK bk idx lng lngInput .m1 none false nbRun w c wts =
        ⟨{ (runLoop bk idx .m1 nbRun w c wts).1 with
             text := pySub cleanRE1 2 (runLoop bk idx .m1 nbRun w c wts).1.text },
           idx + nbRun, [.m1]⟩) ∧
    ((pyMatch emptySoundRE (runLoop bk idx .m1 nbRun w c wts).1.text = true ∨
      pyMatch bracketRE1 (runLoop bk idx .m1 nbRun w c wts).1.text = false) →
      idx + nbRun + 1 ≤
        (transcribeMARK bk idx lng lngInput .m1 none false nbRun w c wts).next) := by
  have he1 : effMode lng false .m1 = .m1 :=
    effMode_m1_keep lng false (by simp [hL])
  by_cases hEm : pyMatch emptySoundRE (runLoop bk idx .m1 nbRun w c wts).1.text = true
  · have e : transcribeMARK bk idx lng lngInput .m1 none false nbRun w c wts =
        ⟨(transcribeMARKF bk (modeRank Mode.m1) (runLoop bk idx .m1 nbRun w c wts).2
            lng lngInput .m2 (some "") false 1 80 2 wts).res,
         (transcribeMARKF bk (modeRank Mode.m1) (runLoop bk idx .m1 nbRun w c wts).2
            lng lngInput .m2 (some "") false 1 80 2 wts).next,
         .m1 :: (transcribeMARKF bk (modeRank Mode.m1) (runLoop bk idx .m1 nbRun w c wts).2
            lng lngInput .m2 (some "") false 1 80 2 wts).modes⟩ := by
      simp only [transcribeMARK, transcribeMARKF, he1, hEm, if_true]
    have hne : (transcribeMARKF bk (modeRank Mode.m1)
        ((runLoop bk idx .m1 nbRun w c wts).2) lng lngInput .m2 (some "")
        false 1 80 2 wts).modes ≠ [] :=
      modes_markF_ne_nil bk 1 ((runLoop bk idx .m1 nbRun w c wts).2)
        lng lngInput .m2 (some "") false 1 80 2 wts
    refine ⟨?_, ?_, ?_⟩
    · rw [e]
      simp [hEm, hne]
    · intro h1 _
      exact absurd hEm (by simp [h1])
    · intro _
      rw [e]
      exact next_markF_succ_ge bk 1 ((runLoop bk idx .m1 nbRun w c wts).2)
        lng lngInput .m2 (some "") false 1 80 2 wts
  · have hEm' : pyMatch emptySoundRE (runLoop bk idx .m1 nbRun w c wts).1.text = false := by
      simpa using hEm
    by_cases hBr : pyMatch bracketRE1 (runLoop bk idx .m1 nbRun w c wts).1.text = true
    · have e : transcribeMARK bk idx lng lngInput .m1 none false nbRun w c wts =
          ⟨{ (runLoop bk idx .m1 nbRun w c wts).1 with
               text := pySub cleanRE1 2 (runLoop bk idx .m1 nbRun w c wts).1.text },
             (runLoop bk idx .m1 nbRun w c wts).2, [.m1]⟩ := by
        simp only [transcribeMARK, transcribeMARKF, he1, hEm', hBr,
          Bool.false_eq_true, if_false, if_true]
      refine ⟨?_, ?_, ?_⟩
      · rw [e]
        simp [hEm', hBr]
      · intro _ _
        exact e.trans (by rfl)
      · intro h
        rcases h with h | h
        · exact absurd h (by simp [hEm'])
        · exact absurd hBr (by simp [h])
    · have hBr' : pyMatch bracketRE1 (runLoop bk idx .m1 nbRun w c wts).1.text = false := by
        simpa using hBr
      have e : transcribeMARK bk idx lng lngInput .m1 none false nbRun w c wts =
          ⟨(transcribeMARKF bk (modeRank Mode.m1) (runLoop bk idx .m1 nbRun w c wts).2
              lng lngInput .m2
              (some (pySub cleanRE1 2 (runLoop bk idx .m1 nbRun w c wts).1.text))
              false 1 80 2 wts).res,
           (transcribeMARKF bk (modeRank Mode.m1) (runLoop bk idx .m1 nbRun w c wts).2
              lng lngInput .m2
              (some (pySub cleanRE1 2 (runLoop bk idx .m1 nbRun w c wts).1.text))
              false 1 80 2 wts).next,
           .m1 :: (transcribeMARKF bk (modeRank Mode.m1) (runLoop bk idx .m1 nbRun w c wts).2
              lng lngInput .m2
              (some (pySub cleanRE1 2 (runLoop bk idx .m1 nbRun w c wts).1.text))
              false 1 80 2 wts).modes⟩ := by
        simp only [transcribeMARK, transcribeMARKF, he1, hEm', hBr',
          Bool.false_eq_true, if_false]
      have hne : (transcribeMARKF bk (modeRank Mode.m1)
          ((runLoop bk idx .m1 nbRun w c wts).2) lng lngInput .m2
          (some (pySub cleanRE1 2 (runLoop bk idx .m1 nbRun w c wts).1.text))
          false 1 80 2 wts).modes ≠ [] :=
        modes_markF_ne_nil bk 1 ((runLoop bk idx .m1 nbRun w c wts).2)
          lng lngInput .m2
          (some (pySub cleanRE1 2 (runLoop bk idx .m1 nbRun w c wts).1.text))
          false 1 80 2 wts
      refine ⟨?_, ?_, ?_⟩
      · rw [e]
        simp [hBr', hne]
      · intro _ h2
        exact absurd h2 (by simp [hBr'])
      · intro _
        rw [e]
        exact next_markF_succ_ge bk 1 ((runLoop bk idx .m1 nbRun w c wts).2)
          lng lngInput .m2
          (some (pySub cleanRE1 2 (runLoop bk idx .m1 nbRun w c wts).1.text))
          false 1 80 2 wts

/-- Counterexample to claim C1 as stated: the output
`"Whisper, Ok. Ok, Whisper."` structurally satisfies the Mode-1
confirmed-bracket pattern, yet `transcribeMARK` does not terminate in
Mode 1 — it transitions to Mode 2 and makes a second backend call,
because the all-marker (empty-sound) test fires first. -/
theorem C1_counterexample :
    pyMatch bracketRE1 "Whisper, Ok. Ok, Whisper." = true ∧
    (runLoop bkC1 0 .m1 1 80 2 true).1.text = "Whisper, Ok. Ok, Whisper." ∧
    (transcribeMARK bkC1 0 "en" "en" .m1 none false 1 80 2 true).modes
      = [.m1, .m2] ∧
    (transcribeMARK bkC1 0 "en" "en" .m1 none false 1 80 2 true).next = 2 := by
  exact ⟨by decide, by decide, by decide, by decide⟩

/-- Witness for C1: on a bracket-confirming, non-marker-only output the
loop terminates in Mode 1 after one backend call, returning the stripped
text. -/
theorem C1_mode1_transition_witness :
    (transcribeMARK bkC1w 0 "en" "en" .m1 none false 1 80 2 true).modes = [.m1] ∧
    transcribeMARK bkC1w 0 "en" "en" .m1 none false 1 80 2 true =
      ⟨{ (runLoop bkC1w 0 .m1 1 80 2 true).1 with
           text := pySub cleanRE1 2 (runLoop bkC1w 0 .m1 1 80 2 true).1.text },
         0 + 1, [.m1]⟩ := by
  refine ⟨?_, ?_⟩
  · exact (C1_mode1_transition bkC1w 0 "en" "en" 1 80 2 true (by decide)).1.mpr
      ⟨by decide, by decide⟩
  · exact (C1_mode1_transition bkC1w 0 "en" "en" 1 80 2 true (by decide)).2.1
      (by decide) (by decide)

/-- If no poll ever succeeds with a `done` status, the polling loop
returns the canonical empty result, whether it stops on a failing
response, a connection error, or the 300-second budget. -/
theorem pollLoop_no_done (poll : Nat → PollResp)
    (h : ∀ i, isDonePoll (poll i) = false) :
    ∀ (fuel i total a b : Nat), pollLoop poll fuel i total a b = .ok emptyMR := by
  intro fuel
  induction fuel with
  | zero =>
    intro i total a b
    rfl
  | succ f ih =>
    intro i total a b
    simp only [pollLoop]
    split
    · rcases hp : poll i with _ | ⟨st, sstr, body⟩
      · rfl
      · simp only []
        split
        · split
          · exfalso
            have hi := h i
            rw [hp] at hi
            simp only [isDonePoll] at hi
            rcases (by assumption : st = 200 ∨ st = 201) with rfl | rfl <;>
              simp [(by assumption : sstr = "done")] at hi
          · exact ih (i + 1) (total + a) b (a + b)
        · rfl
    · rfl

/-- A poll answering `done` with an accepted status hands its body to the
converter. -/
theorem pollLoop_done_step (poll : Nat → PollResp) (f i total a b : Nat)
    (hlt : total < 300) (ps : Nat) (body : GRes)
    (hp : poll i = .resp ps "done" body) (hps : ps = 200 ∨ ps = 201) :
    pollLoop poll (f + 1) i total a b =
      convert_gladia_to_internal_format body := by
  simp only [pollLoop, hp]
  rw [if_pos hlt, if_pos hps]
  simp

/-- Claim C3 (amended): each enumerated failure of the remote client —
missing upload success (status other than 200), submit status other than
200/201, no poll ever reaching a successful `done` (covering poll failure
statuses, connection errors, and the 300-second budget) and connection
errors on upload or submit — returns the canonical empty result; a
successful first poll with `done` hands the body to the converter, whose
`IndexError` on a subtitle-less body escapes the function. -/
theorem C3_gladia_failures (key : Bool) (up : UpResp) (sub : SubResp)
    (poll : Nat → PollResp) :
    (up = .exn → transcribe_with_gladia key up sub poll = .ok emptyMR) ∧
    (∀ st u, up = .resp st u → st ≠ 200 →
      transcribe_with_gladia key up sub poll = .ok emptyMR) ∧
    (sub = .exn → transcribe_with_gladia key up sub poll = .ok emptyMR) ∧
    (∀ st2 ru, sub = .resp st2 ru → ¬(st2 = 200 ∨ st2 = 201) →
      transcribe_with_gladia key up sub poll = .ok emptyMR) ∧
    ((∀ i, isDonePoll (poll i) = false) →
      transcribe_with_gladia key up sub poll = .ok emptyMR) ∧
    (∀ u st2 ru ps body, key = true → up = .resp 200 u → sub = .resp st2 ru →
      (st2 = 200 ∨ st2 = 201) → poll 0 = .resp ps "done" body →
      (ps = 200 ∨ ps = 201) →
      transcribe_with_gladia key up sub poll =
        convert_gladia_to_internal_format body) := by
  refine ⟨?_, ?_, ?_, ?_, ?_, ?_⟩
  · intro h
    subst h
    cases key <;> rfl
  · intro st u hup hst
    subst hup
    cases key
    · rfl
    · simp [transcribe_with_gladia, hst]
  · intro h
    subst h
    cases key
    · rfl
    · cases up with
      | exn => rfl
      | resp st u =>
        by_cases hst : st = 200
        · subst hst
          simp [transcribe_with_gladia]
        · simp [transcribe_with_gladia, hst]
  · intro st2 ru hsub hns
    subst hsub
    cases key
    · rfl
    · cases up with
      | exn => rfl
      | resp st u =>
        by_cases hst : st = 200
        · subst hst
          simp [transcribe_with_gladia, hns]
        · simp [transcribe_with_gladia, hst]
  · intro hnd
    cases key
    · rfl
    · cases up with
      | exn => rfl
      | resp st u =>
        by_cases hst : st = 200
        · subst hst
          cases sub with
          | exn => simp [transcribe_with_gladia]
          | resp st2 ru =>
            by_cases h2 : st2 = 200 ∨ st2 = 201
            · simp [transcribe_with_gladia, h2, pollLoop_no_done poll hnd]
            · simp [transcribe_with_gladia, h2]
        · simp [transcribe_with_gladia, hst]
  · intro u st2 ru ps body hk hup hsub h2 hp hps
    subst hk
    subst hup
    subst hsub
    have e : transcribe_with_gladia true (.resp 200 u) (.resp st2 ru) poll =
        pollLoop poll 301 0 0 1 1 := by
      rcases h2 with rfl | rfl <;> rfl
    rw [e, show (301 : Nat) = 300 + 1 from rfl]
    exact pollLoop_done_step poll 300 0 0 1 1 (by decide) ps body hp hps

/-- Counterexample to claim C3 as stated: a fully successful
upload/submit/poll interaction whose done body carries no subtitle blocks
makes the converter raise an `IndexError` that escapes
`transcribe_with_gladia` — the client can raise to its caller instead of
returning the canonical empty result. -/
theorem C3_counterexample :
    transcribe_with_gladia true (.resp 200 "u") (.resp 201 "r")
        (fun _ => .resp 200 "done" gResNoSubs)
      = .error "IndexError: list index out of range" := by
  rfl

/-- Witness for C3: an upload failing with HTTP 400 yields the canonical
empty result. -/
theorem C3_gladia_failures_witness :
    transcribe_with_gladia true (.resp 400 "u") (.resp 200 "r")
        (fun _ => .resp 200 "done" gResNoSubs) = .ok emptyMR := by
  exact (C3_gladia_failures true (.resp 400 "u") (.resp 200 "r")
      (fun _ => .resp 200 "done" gResNoSubs)).2.1 400 "u" rfl (by decide)

/-- Claim C6 (amended): response normalization always extracts utterances,
full transcript and SRT from the transcription section — the
translation-emptiness flag is hard-set, so the translation section is
never consulted — mapping each utterance to one segment and each word to
one Word entry; the SRT field is the first subtitle block's text, and a
response without subtitle blocks raises an IndexError instead of
yielding the empty string. -/
theorem C6_convert_transcription_only (g : GRes) :
    (g.transcription.subtitles = [] →
      convert_gladia_to_internal_format g =
        .error "IndexError: list index out of range") ∧
    (∀ s rest, g.transcription.subtitles = s :: rest →
      convert_gladia_to_internal_format g =
        .ok ⟨g.transcription.full_transcript, s.subtitles,
          g.transcription.utterances.map create_json_segment⟩) := by
  constructor
  · intro h
    simp only [convert_gladia_to_internal_format, get_utterances,
      get_text_and_srt, h, Bool.not_true, Bool.false_eq_true, if_false,
      ite_false, ite_true]
    rfl
  · intro s rest h
    simp only [convert_gladia_to_internal_format, get_utterances,
      get_text_and_srt, h, Bool.not_true, Bool.false_eq_true, if_false,
      ite_false, ite_true]
    rfl

/-- Counterexample to claim C6 as stated: although the translation section
is present and non-empty, normalization ignores it entirely (the
hardcoded emptiness flag) and, because the transcription section has no
subtitle blocks, it raises an IndexError instead of returning the
translation data or an empty SRT string. -/
theorem C6_counterexample :
    gC6.translation.results ≠ [] ∧
    (gC6.translation.results.headD ⟨[], "", []⟩).full_transcript = "TRANSLATED" ∧
    convert_gladia_to_internal_format gC6 =
      .error "IndexError: list index out of range" := by
  exact ⟨by decide, by decide, rfl⟩

/-- Witness for C6: the transcription section's transcript, first subtitle
block and utterance mapping are returned. -/
theorem C6_convert_transcription_only_witness :
    convert_gladia_to_internal_format gC6w =
      .ok ⟨"FT", "SRT1", [⟨0, 1, "hi", [⟨0, 1, "h"⟩]⟩]⟩ := by
  have h := (C6_convert_transcription_only gC6w).2 ⟨"SRT1"⟩ [⟨"SRT2"⟩] rfl
  exact h.trans (by rfl)

/-- A Mode-0 entry executes exactly one Mode-0 pass. -/
theorem modes_mark_m0 (bk : Nat → List BSeg) (idx : Nat) (l li : String)
    (aLast : Option String) (mu : Bool) (nb w c : Nat) (wts : Bool) :
    (transcribeMARK bk idx l li .m0 aLast mu nb w c wts).modes = [.m0] := by
  simp [transcribeMARK, transcribeMARKF, effMode_m0]

/-- A Mode-3 entry executes exactly one Mode-3 pass. -/
theorem modes_mark_m3 (bk : Nat → List BSeg) (idx : Nat) (l li : String)
    (aLast : Option String) (mu : Bool) (nb w c : Nat) (wts : Bool) :
    (transcribeMARK bk idx l li .m3 aLast mu nb w c wts).modes = [.m3] := by
  simp [transcribeMARK, transcribeMARKF, effMode_m3]

/-- Every backend call recorded by the weird-word cascade is either the
remote client or a `transcribeMARK` entry that ran only Mode 3. -/
theorem cascade_trace_m3 (bk : Nat → List BSeg) (gl : MResult) (o : TOpts)
    (idx : Nat) :
    ∀ r ∈ (weirdCascade bk gl o idx).2.2, ∀ m ∈ CallRec.recModes r,
      m = Mode.m3 := by
  simp only [weirdCascade]
  obtain ⟨A1, hA1⟩ : ∃ A, transcribeMARK bk idx o.lng o.lngInput .m3 none
      o.isMusic o.nbRun o.w o.c o.wts = A := ⟨_, rfl⟩
  have hm1 : A1.modes = [.m3] := by
    rw [← hA1]
    exact modes_mark_m3 bk idx o.lng o.lngInput none o.isMusic o.nbRun o.w o.c o.wts
  rw [hA1]
  obtain ⟨A2, hA2⟩ : ∃ A, transcribeMARK bk A1.next o.lng o.lngInput .m3 none
      o.isMusic o.nbRun o.w o.c o.wts = A := ⟨_, rfl⟩
  have hm2 : A2.modes = [.m3] := by
    rw [← hA2]
    exact modes_mark_m3 bk A1.next o.lng o.lngInput none o.isMusic o.nbRun o.w o.c o.wts
  rw [hA2]
  by_cases hsil : o.silcutInPathIn = true
  · simp only [hsil, not_true, if_neg, ite_false, Bool.true_eq_false,
      not_false_iff, if_false]
    obtain ⟨A5, hA5⟩ : ∃ A, transcribeMARK bk A2.next o.lng o.lngInput .m3 none
        o.isMusic o.nbRun o.w o.c o.wts = A := ⟨_, rfl⟩
    have hm5 : A5.modes = [.m3] := by
      rw [← hA5]
      exact modes_mark_m3 bk A2.next o.lng o.lngInput none o.isMusic o.nbRun o.w o.c o.wts
    rw [hA5]
    split_ifs <;> simp only [hm1, hm2, hm5] <;> decide
  · have hsil' : o.silcutInPathIn = false := by simpa using hsil
    simp only [hsil', Bool.false_eq_true, not_false_iff, if_true, ite_true]
    obtain ⟨A3, hA3⟩ : ∃ A, transcribeMARK bk A2.next o.lng o.lngInput .m3 none
        o.isMusic o.nbRun o.w o.c o.wts = A := ⟨_, rfl⟩
    have hm3 : A3.modes = [.m3] := by
      rw [← hA3]
      exact modes_mark_m3 bk A2.next o.lng o.lngInput none o.isMusic o.nbRun o.w o.c o.wts
    rw [hA3]
    obtain ⟨A5, hA5⟩ : ∃ A, transcribeMARK bk A3.next o.lng o.lngInput .m3 none
        o.isMusic o.nbRun o.w o.c o.wts = A := ⟨_, rfl⟩
    have hm5 : A5.modes = [.m3] := by
      rw [← hA5]
      exact modes_mark_m3 bk A3.next o.lng o.lngInput none o.isMusic o.nbRun o.w o.c o.wts
    rw [hA5]
    split_ifs <;> simp only [hm1, hm2, hm3, hm5] <;> decide

/-- Claim C2 (amended): the cascade's retained result obeys the reducer
`escalateSpec` over the attempt chain (second attempt, third step, remote
result, fifth attempt) — escalation gated by the latest attempt's count
exceeding 2, replacement exactly on a count strictly lower than the
immediately preceding attempt's — and on mocked spam counts [5, 3, 3, 0]
the 4th (remote) result is selected after exactly three backend
invocations, with no 5th call. -/
theorem C2_cascade_selection (bk : Nat → List BSeg) (gl : MResult) (o : TOpts)
    (idx : Nat) (hvi : lowerS o.lngInput = "vi") :
    ((weirdCascade bk gl o idx).1 =
      escalateSpec (casc1 bk o idx).res
        (count_weird_words (casc1 bk o idx).res.srt)
        [((casc2 bk o idx).res, count_weird_words (casc2 bk o idx).res.srt),
         (casc3res bk o idx, count_weird_words (casc3res bk o idx).srt),
         (gl, count_weird_words gl.text),
         ((casc5 bk o idx).res, count_weird_words (casc5 bk o idx).res.srt)]) ∧
    weirdCascade bkC2y glC2y oC2y 0 =
      (glC2y, 2, [CallRec.mark .pRemix [.m3], CallRec.mark .pNoCut [.m3],
        CallRec.gladiaCall .pRemix]) := by
  refine ⟨?_, by decide⟩
  simp only [weirdCascade, casc1, casc2, casc3, casc3res, casc3next, casc5, hvi]
  obtain ⟨A1, hA1⟩ : ∃ A, transcribeMARK bk idx o.lng o.lngInput .m3 none
      o.isMusic o.nbRun o.w o.c o.wts = A := ⟨_, rfl⟩
  rw [hA1]
  obtain ⟨A2, hA2⟩ : ∃ A, transcribeMARK bk A1.next o.lng o.lngInput .m3 none
      o.isMusic o.nbRun o.w o.c o.wts = A := ⟨_, rfl⟩
  rw [hA2]
  by_cases hsil : o.silcutInPathIn = true
  · simp only [hsil, not_true, Bool.true_eq_false, not_false_iff, if_neg,
      ite_false, if_false]
    obtain ⟨A5, hA5⟩ : ∃ A, transcribeMARK bk A2.next o.lng o.lngInput .m3 none
        o.isMusic o.nbRun o.w o.c o.wts = A := ⟨_, rfl⟩
    rw [hA5]
    by_cases h1 : 2 < count_weird_words A1.res.srt
    · rw [if_pos (by exact ⟨trivial, h1⟩)]
      by_cases h2 : 2 < count_weird_words A2.res.srt
      · rw [if_pos h2, if_pos h2]
        by_cases h4 : 2 < count_weird_words gl.text
        · rw [if_pos h4]
          simp only [escalateSpec, if_neg (not_le.mpr h1),
            if_neg (not_le.mpr h2), if_neg (not_le.mpr h4)]
        · rw [if_neg h4]
          simp only [escalateSpec, if_neg (not_le.mpr h1),
            if_neg (not_le.mpr h2), if_pos (not_lt.mp h4)]
      · rw [if_neg h2]
        simp only [escalateSpec, if_neg (not_le.mpr h1), if_pos (not_lt.mp h2)]
    · rw [if_neg (by intro hh; exact h1 hh.2)]
      simp only [escalateSpec, if_pos (not_lt.mp h1)]
  · have hsil' : o.silcutInPathIn = false := by simpa using hsil
    simp only [hsil', Bool.false_eq_true, not_false_iff, if_pos, ite_true,
      if_true]
    obtain ⟨A3, hA3⟩ : ∃ A, transcribeMARK bk A2.next o.lng o.lngInput .m3 none
        o.isMusic o.nbRun o.w o.c o.wts = A := ⟨_, rfl⟩
    rw [hA3]
    obtain ⟨A5, hA5⟩ : ∃ A, transcribeMARK bk A3.next o.lng o.lngInput .m3 none
        o.isMusic o.nbRun o.w o.c o.wts = A := ⟨_, rfl⟩
    rw [hA5]
    by_cases h1 : 2 < count_weird_words A1.res.srt
    · rw [if_pos (by exact ⟨trivial, h1⟩)]
      by_cases h2 : 2 < count_weird_words A2.res.srt
      · rw [if_pos h2]
        by_cases h3 : 2 < count_weird_words A3.res.srt
        · rw [if_pos h3]
          by_cases h4 : 2 < count_weird_words gl.text
          · rw [if_pos h4]
            simp only [escalateSpec, if_neg (not_le.mpr h1),
              if_neg (not_le.mpr h2), if_neg (not_le.mpr h3),
              if_neg (not_le.mpr h4)]
          · rw [if_neg h4]
            simp only [escalateSpec, if_neg (not_le.mpr h1),
              if_neg (not_le.mpr h2), if_neg (not_le.mpr h3),
              if_pos (not_lt.mp h4)]
        · rw [if_neg h3]
          simp only [escalateSpec, if_neg (not_le.mpr h1),
            if_neg (not_le.mpr h2), if_pos (not_lt.mp h3)]
      · rw [if_neg h2]
        simp only [escalateSpec, if_neg (not_le.mpr h1), if_pos (not_lt.mp h2)]
    · rw [if_neg (by intro hh; exact h1 hh.2)]
      simp only [escalateSpec, if_pos (not_lt.mp h1)]

/-- Counterexample to claim C2 as stated: with attempt spam counts
[5, 3, 9, 4, 7] the cascade retains the remote result with count 4 even
though the second attempt counted only 3 — the retained count is not
monotonically non-increasing and the lowest-count attempt is not the one
selected, because each comparison is against the immediately preceding
attempt, not the retained best. -/
theorem C2_counterexample :
    (weirdCascade bkC2x glC2x oC2x 0).1 = glC2x ∧
    count_weird_words glC2x.text = 4 ∧
    count_weird_words
        ((transcribeMARK bkC2x 1 "en" "vi" .m3 none true 1 80 2 true).res.srt)
      = 3 ∧
    (3 : Nat) < 4 := by
  exact ⟨by decide, by decide, by decide, by decide⟩

/-- Witness for C2: on the [5, 3, 3, 0] scenario configuration the
selection rule instantiates to the remote (4th) result. -/
theorem C2_cascade_selection_witness :
    (weirdCascade bkC2y glC2y oC2y 0).1 = glC2y := by
  have h := (C2_cascade_selection bkC2y glC2y oC2y 0 rfl).1
  exact h.trans (by decide)

/-- Claim C9: whenever the probed duration exceeds 30 seconds (and passes
the cap), every `transcribeMARK` entry runs only in Mode 0 or Mode 3 —
the marker-bracketing Modes 1 and 2 are never exercised — and on the
non-`onlySRT` path the initial attempt is the Mode-0 call. -/
theorem C9_long_duration_no_markers (bk : Nat → List BSeg) (gl : MResult)
    (o : TOpts) (d : Int) (hd : o.duration = some d) (h30 : 30 < d)
    (hmax : d ≤ o.maxDuration) :
    (∀ r ∈ traceOf (transcribeOpts bk gl o), ∀ m ∈ CallRec.recModes r,
        m = Mode.m0 ∨ m = Mode.m3) ∧
    (o.onlySRT = false →
      (traceOf (transcribeOpts bk gl o)).head? =
        some (.mark .pIn [.m0])) := by
  have hng : ¬ o.maxDuration < d := not_lt.mpr hmax
  have hm : (if 30 < d then Mode.m0 else Mode.m1) = Mode.m0 := if_pos h30
  have hW : (whisperVersion ≠ "-v3") = True := by
    simp [whisperVersion]
  rcases hS : o.onlySRT with _ | _ <;> rcases hA : o.addSRT with _ | _ <;>
    rcases hMu : o.isMusic with _ | _
  all_goals
    simp only [transcribeOpts, traceOf, hd, hng, hm, hS, hA, hMu, hW,
      modes_mark_m0, modes_mark_m3, if_false, if_true, ite_false, ite_true,
      Bool.false_eq_true, Bool.true_eq_false, or_self, or_true, true_or,
      false_or, or_false, false_and, true_and, and_true, if_neg, not_false_iff,
      List.nil_append, List.append_nil]
  -- onlySRT = false, addSRT = false, isMusic = false / true
  case false.false.false =>
    exact ⟨by decide, fun _ => rfl⟩
  case false.false.true =>
    exact ⟨by decide, fun _ => rfl⟩
  -- onlySRT = false, addSRT = true, isMusic = false: extra pNoCut Mode-3 call
  case false.true.false =>
    exact ⟨by decide, fun _ => rfl⟩
  -- onlySRT = false, addSRT = true, isMusic = true: the cascade runs
  case false.true.true =>
    constructor
    · intro r hr m hmem
      rcases List.mem_append.mp hr with h | h
      · rcases List.mem_singleton.mp h with rfl
        left
        simpa [CallRec.recModes] using hmem
      · exact Or.inr (cascade_trace_m3 bk gl o _ r h m hmem)
    · intro _
      rfl
  -- onlySRT = true: no initial call; the head clause is vacuous
  case true.false.false =>
    exact ⟨by decide, fun h => by cases h⟩
  case true.false.true =>
    refine ⟨?_, fun h => by cases h⟩
    intro r hr m hmem
    exact Or.inr (cascade_trace_m3 bk gl o _ r (by simpa using hr) m hmem)
  case true.true.false =>
    exact ⟨by decide, fun h => by cases h⟩
  case true.true.true =>
    refine ⟨?_, fun h => by cases h⟩
    intro r hr m hmem
    exact Or.inr (cascade_trace_m3 bk gl o _ r (by simpa using hr) m hmem)

/-- Witness for C9: a 40-second non-music request makes its initial (and
only) backend call in Mode 0. -/
theorem C9_long_duration_no_markers_witness :
    (∀ r ∈ traceOf (transcribeOpts bkC9 emptyMR
        ⟨some 40, 600, "en", "en", false, false, false, 1, true, true, 80, 2⟩),
      ∀ m ∈ CallRec.recModes r, m = Mode.m0 ∨ m = Mode.m3) ∧
    (traceOf (transcribeOpts bkC9 emptyMR
        ⟨some 40, 600, "en", "en", false, false, false, 1, true, true, 80, 2⟩)).head?
      = some (.mark .pIn [.m0]) := by
  have h := C9_long_duration_no_markers bkC9 emptyMR
    ⟨some 40, 600, "en", "en", false, false, false, 1, true, true, 80, 2⟩
    40 rfl (by decide) (by decide)
  exact ⟨h.1, h.2 rfl⟩

/-- Witness for C10: a 40-second input (Mode 0) whose backend returns no
segments produces the `"--"` sentinel. -/
theorem C10_empty_text_sentinel_witness :
    (transcribeMARK bkC10 0 "en" "en" (if (30 : Int) < 40 then Mode.m0 else Mode.m1)
        none false 1 80 2 true).res.text = "" ∧
    (∀ r tr, transcribeOpts bkC10 emptyMR
        ⟨some 40, 600, "en", "en", false, false, false, 1, true, true, 80, 2⟩ =
          .ok (.res r, tr) → r.text = "--") := by
  refine ⟨by decide, ?_⟩
  exact (C10_empty_text_sentinel bkC10 emptyMR
    ⟨some 40, 600, "en", "en", false, false, false, 1, true, true, 80, 2⟩
    40 rfl (by decide) rfl rfl).2 (by decide)

/-- The head (with default) of a non-empty list is a member. -/
theorem mem_headD {α : Type} (l : List α) (h : l ≠ []) (d : α) :
    l.headD d ∈ l := by
  cases l with
  | nil => cases h rfl
  | cons a as => simp [List.headD]

/-- The last element (with default) of a non-empty list is a member. -/
theorem mem_getLastD {α : Type} (l : List α) : l ≠ [] → ∀ d : α, l.getLastD d ∈ l := by
  induction l with
  | nil => intro h; cases h rfl
  | cons a as ih =>
    intro _ d
    cases as with
    | nil => simp [List.getLastD]
    | cons b t => exact List.mem_cons_of_mem a (ih (by simp) a)

/-- In a word group with per-word validity and sorted starts, the first
start is at most the last stop. -/
theorem headD_start_le_getLastD_stop (cur : List JWord) (h : cur ≠ [])
    (h1 : ∀ w ∈ cur, w.start ≤ w.stop)
    (h2 : cur.Pairwise (fun a b => a.start ≤ b.start)) :
    (cur.headD wdflt).start ≤ (cur.getLastD wdflt).stop := by
  cases cur with
  | nil => cases h rfl
  | cons a as =>
    have hmem : (a :: as).getLastD wdflt ∈ a :: as :=
      mem_getLastD (a :: as) (by simp) wdflt
    have hstop := h1 _ hmem
    simp only [List.headD]
    rcases List.mem_cons.mp hmem with he | hm
    · rw [he] at hstop
      rw [he]
      exact hstop
    · exact le_trans ((List.pairwise_cons.mp h2).1 _ hm) hstop

/-- Invariant of the `split_sentence` word loop: with valid, start-sorted
words and an accumulator whose segments are valid and start no later than
any remaining word, every produced segment has start at most stop. -/
theorem splitGo_le (ws : List JWord) : ∀ (acc : List JSeg) (cur : List JWord),
    (∀ s ∈ acc, s.start ≤ s.stop) →
    (∀ s ∈ acc, ∀ w ∈ cur ++ ws, s.start ≤ w.start) →
    (∀ w ∈ cur ++ ws, w.start ≤ w.stop) →
    ((cur ++ ws).Pairwise (fun a b => a.start ≤ b.start)) →
    ∀ s ∈ splitGo acc cur ws, s.start ≤ s.stop := by
  induction ws with
  | nil =>
    intro acc cur hacc hacc2 hval hpw
    rw [List.append_nil] at hacc2 hval hpw
    cases cur with
    | nil => simpa [splitGo] using hacc
    | cons c ct =>
      simp only [splitGo]
      split_ifs with hcond
      · intro s hs
        rcases List.mem_append.mp hs with hL | hR
        · exact hacc s ((List.dropLast_prefix acc).subset hL)
        · rcases List.mem_singleton.mp hR with rfl
          have hlast : acc.getLastD sdflt ∈ acc := mem_getLastD acc hcond.1 sdflt
          have hwl : (c :: ct).getLastD wdflt ∈ c :: ct :=
            mem_getLastD _ (by simp) _
          have s1 : (acc.getLastD sdflt).start ≤ ((c :: ct).getLastD wdflt).start :=
            hacc2 _ hlast _ hwl
          have s2 := hval _ hwl
          simpa [mergeLast] using le_trans s1 s2
      · intro s hs
        rcases List.mem_append.mp hs with hL | hR
        · exact hacc s hL
        · rcases List.mem_singleton.mp hR with rfl
          simpa [closeSeg] using
            headD_start_le_getLastD_stop (c :: ct) (by simp) hval hpw
  | cons w rest ih =>
    intro acc cur hacc hacc2 hval hpw
    rw [List.append_cons] at hacc2 hval hpw
    simp only [splitGo]
    split_ifs with hcond
    · have hpw2 := List.pairwise_append.mp hpw
      refine ih (acc ++ [closeSeg (cur ++ [w])]) [] ?_ ?_ ?_ ?_
      · intro s hs
        rcases List.mem_append.mp hs with hL | hR
        · exact hacc s hL
        · rcases List.mem_singleton.mp hR with rfl
          simpa [closeSeg] using
            headD_start_le_getLastD_stop (cur ++ [w]) (by simp)
              (fun v hv => hval v (List.mem_append_left _ hv)) hpw2.1
      · intro s hs v hv
        rw [List.nil_append] at hv
        rcases List.mem_append.mp hs with hL | hR
        · exact hacc2 s hL v (List.mem_append_right _ hv)
        · rcases List.mem_singleton.mp hR with rfl
          have hh : (cur ++ [w]).headD wdflt ∈ cur ++ [w] :=
            mem_headD _ (by simp) _
          simpa [closeSeg] using hpw2.2.2 _ hh v hv
      · intro v hv
        rw [List.nil_append] at hv
        exact hval v (List.mem_append_right _ hv)
      · rw [List.nil_append]
        exact hpw2.2.1
    · exact ih acc (cur ++ [w]) hacc hacc2 hval hpw

/-- Whitespace squashing distributes over list append. -/
theorem wsquashL_append (a b : List Char) :
    wsquashL (a ++ b) = wsquashL a ++ wsquashL b := by
  simp [wsquashL, List.filter_append]

/-- Whitespace squashing distributes over string append. -/
theorem wsquash_append (a b : String) :
    wsquash (a ++ b) = wsquash a ++ wsquash b := by
  simp [wsquash, wsquashL, String.toList, String.data_append, List.filter_append]

/-- The empty string squashes to the empty character list. -/
theorem wsquash_empty : wsquash "" = [] := rfl

/-- Dropping a leading whitespace run does not change the squashed text. -/
theorem filter_dropWhile_pyWS (l : List Char) :
    (l.dropWhile pyWS).filter (fun c => !pyWS c) = l.filter (fun c => !pyWS c) := by
  induction l with
  | nil => rfl
  | cons c t ih =>
    by_cases h : pyWS c = true
    · simp [List.dropWhile_cons, h, List.filter_cons, ih]
    · simp [List.dropWhile_cons, h, List.filter_cons]

/-- Stripping does not change the squashed text (list level). -/
theorem wsquashL_stripL (l : List Char) : wsquashL (stripL l) = wsquashL l := by
  simp only [wsquashL, stripL]
  rw [List.filter_reverse, filter_dropWhile_pyWS, List.filter_reverse,
    List.reverse_reverse, filter_dropWhile_pyWS]

/-- Stripping does not change the squashed text. -/
theorem wsquash_stripS (s : String) : wsquash (stripS s) = wsquash s := by
  exact wsquashL_stripL s.toList

/-- Space-joining and plain concatenation agree up to whitespace. -/
theorem wsquash_joinSp (l : List String) :
    wsquash (joinSp l) = wsquash (concatS l) := by
  induction l with
  | nil => rfl
  | cons x xs ih =>
    cases xs with
    | nil =>
      show wsquash x = wsquash (x ++ "")
      rw [wsquash_append]
      simp [wsquash, wsquashL]
    | cons y ys =>
      calc wsquash (x ++ " " ++ joinSp (y :: ys))
          = wsquash x ++ wsquash " " ++ wsquash (joinSp (y :: ys)) := by
            rw [wsquash_append, wsquash_append]
        _ = wsquash x ++ wsquash (concatS (y :: ys)) := by
            rw [show wsquash " " = [] from rfl, ih]
            simp
        _ = wsquash (concatS (x :: y :: ys)) := by
            rw [show concatS (x :: y :: ys) = x ++ concatS (y :: ys) from rfl,
              wsquash_append]

/-- Concatenation of string lists distributes over append. -/
theorem concatS_append (a b : List String) :
    concatS (a ++ b) = concatS a ++ concatS b := by
  induction a with
  | nil => simp [concatS]
  | cons x xs ih => simp [concatS, ih, String.append_assoc]

/-- Sentence text of an appended segment list. -/
theorem segsText_append (a b : List JSeg) :
    segsText (a ++ b) = segsText a ++ segsText b := by
  simp [segsText, List.map_append, concatS_append]

/-- Word text of an appended word list. -/
theorem wordsText_append (a b : List JWord) :
    wordsText (a ++ b) = wordsText a ++ wordsText b := by
  simp [wordsText, List.map_append, concatS_append]

/-- A closed group's sentence squashes to its word texts. -/
theorem wsquash_closeSeg (cur : List JWord) :
    wsquash (closeSeg cur).sentence = wsquash (wordsText cur) := by
  simp only [closeSeg]
  rw [wsquash_stripS, wsquash_joinSp]
  rfl

/-- Merging the trailing group into the accumulator's last sentence
preserves the squashed text. -/
theorem segsText_merge (cur : List JWord) (acc : List JSeg) : acc ≠ [] →
    wsquash (segsText (acc.dropLast ++ [mergeLast (acc.getLastD sdflt) cur])) =
      wsquash (segsText acc) ++ wsquash (wordsText cur) := by
  induction acc with
  | nil => intro h; cases h rfl
  | cons a as ih =>
    intro _
    cases as with
    | nil =>
      show wsquash (segsText [mergeLast a cur]) = _
      rw [show segsText [mergeLast a cur] = (mergeLast a cur).sentence ++ "" from rfl]
      rw [show (mergeLast a cur).sentence
            = a.sentence ++ " " ++ joinSp (cur.map (fun w => w.text)) from rfl]
      rw [wsquash_append, wsquash_append, wsquash_append,
        show wsquash " " = [] from rfl, wsquash_joinSp,
        show segsText [a] = a.sentence ++ "" from rfl, wsquash_append]
      simp [wordsText, wsquash_empty]
    | cons b t =>
      have ihh := ih (by simp)
      show wsquash (segsText (a :: ((b :: t).dropLast
          ++ [mergeLast ((b :: t).getLastD sdflt) cur]))) = _
      rw [show segsText (a :: ((b :: t).dropLast
            ++ [mergeLast ((b :: t).getLastD sdflt) cur]))
          = a.sentence ++ segsText ((b :: t).dropLast
            ++ [mergeLast ((b :: t).getLastD sdflt) cur]) from rfl,
        wsquash_append, ihh,
        show segsText (a :: b :: t) = a.sentence ++ segsText (b :: t) from rfl,
        wsquash_append, List.append_assoc]

/-- Text preservation of the `split_sentence` word loop: the squashed
output sentences are the squashed accumulator sentences followed by the
squashed word texts. -/
theorem splitGo_text (ws : List JWord) : ∀ (acc : List JSeg) (cur : List JWord),
    wsquash (segsText (splitGo acc cur ws)) =
      wsquash (segsText acc) ++ wsquash (wordsText cur)
        ++ wsquash (wordsText ws) := by
  induction ws with
  | nil =>
    intro acc cur
    cases cur with
    | nil => simp [splitGo, wordsText, concatS, wsquash_empty]
    | cons c ct =>
      simp only [splitGo]
      split_ifs with hcond
      · rw [segsText_merge (c :: ct) acc hcond.1]
        simp [wordsText, concatS, wsquash_empty]
      · rw [segsText_append, wsquash_append,
          show segsText [closeSeg (c :: ct)] = (closeSeg (c :: ct)).sentence ++ "" from rfl,
          wsquash_append, wsquash_closeSeg]
        simp [wordsText, concatS]
  | cons w rest ih =>
    intro acc cur
    simp only [splitGo]
    split_ifs with hcond
    · rw [ih (acc ++ [closeSeg (cur ++ [w])]) [], segsText_append, wsquash_append,
        show segsText [closeSeg (cur ++ [w])] = (closeSeg (cur ++ [w])).sentence ++ "" from rfl,
        wsquash_append, wsquash_closeSeg, wordsText_append,
        show wordsText [w] = w.text ++ "" from rfl,
        show wordsText (w :: rest) = w.text ++ wordsText rest from rfl]
      rw [wsquash_append, wsquash_append, wsquash_append,
        show wsquash (wordsText ([] : List JWord)) = [] from rfl,
        show (wsquash "" : List Char) = [] from rfl]
      simp [List.append_assoc]
    · rw [ih acc (cur ++ [w]), wordsText_append,
        show wordsText [w] = w.text ++ "" from rfl,
        show wordsText (w :: rest) = w.text ++ wordsText rest from rfl]
      rw [wsquash_append, wsquash_append, wsquash_append,
        show (wsquash "" : List Char) = [] from rfl]
      simp [List.append_assoc]

/-- One item's squashed output text equals its squashed contribution. -/
theorem processItem_text (it : JSeg) :
    wsquash (segsText (processItem it)) = wsquash (itemContribution it) := by
  by_cases hspam : contains_weird_words it.sentence = true
  · have h0 : hasPunct "" = false := rfl
    simp [processItem, itemContribution, hspam, h0, segsText, concatS,
      wsquash_append]
  · have hspam0 : contains_weird_words it.sentence = false := by
      simpa using hspam
    by_cases hp : hasPunct it.sentence = true
    · have := splitGo_text it.words [] []
      simp only [processItem, itemContribution, hspam0, Bool.false_eq_true,
        if_false, ite_false, hp, if_true, ite_true]
      simpa [split_sentence, segsText, concatS, wordsText] using this
    · have hp0 : hasPunct it.sentence = false := by simpa using hp
      simp [processItem, itemContribution, hspam0, hp0, segsText, concatS,
        wsquash_append]

/-- The item loop of `process_json` flattens the per-item outputs. -/
theorem process_json_eq_flatten (l : List JSeg) :
    process_json l = (l.map processItem).flatten := by
  have h : ∀ (l : List JSeg) (acc : List JSeg),
      l.foldl (fun out item => out ++ processItem item) acc
        = acc ++ (l.map processItem).flatten := by
    intro l
    induction l with
    | nil => intro acc; simp
    | cons x xs ih => intro acc; simp [ih, List.append_assoc]
  simpa [process_json] using h l []

/-- Text preservation of the whole segmentation pass. -/
theorem process_json_text (l : List JSeg) :
    wsquash (segsText (split_transcription l)) =
      wsquash (concatS (l.map itemContribution)) := by
  rw [split_transcription, process_json_eq_flatten]
  induction l with
  | nil => rfl
  | cons x xs ih =>
    rw [List.map_cons, List.flatten_cons, segsText_append, wsquash_append, ih,
      List.map_cons,
      show concatS (itemContribution x :: xs.map itemContribution)
        = itemContribution x ++ concatS (xs.map itemContribution) from rfl,
      wsquash_append, processItem_text]

/-- End-points validity of the whole segmentation pass. -/
theorem process_json_ends (l : List JSeg)
    (h : ∀ it ∈ l, it.start ≤ it.stop ∧ (∀ w ∈ it.words, w.start ≤ w.stop) ∧
        it.words.Pairwise (fun a b => a.start ≤ b.start)) :
    ∀ s ∈ split_transcription l, s.start ≤ s.stop := by
  rw [split_transcription, process_json_eq_flatten]
  intro s hs
  rcases List.mem_flatten.mp hs with ⟨chunk, hchunk, hsc⟩
  rcases List.mem_map.mp hchunk with ⟨it, hit, rfl⟩
  rcases h it hit with ⟨h1, h2, h3⟩
  by_cases hspam : contains_weird_words it.sentence = true
  · have h0 : hasPunct "" = false := rfl
    simp [processItem, hspam, h0] at hsc
    rw [hsc]
    exact h1
  · have hspam0 : contains_weird_words it.sentence = false := by
      simpa using hspam
    by_cases hp : hasPunct it.sentence = true
    · simp only [processItem, hspam0, Bool.false_eq_true, if_false, ite_false,
        hp, if_true, ite_true, split_sentence] at hsc
      exact splitGo_le it.words [] [] (by simp) (by simp) h2 h3 s hsc
    · have hp0 : hasPunct it.sentence = false := by simpa using hp
      simp [processItem, hspam0, hp0] at hsc
      rw [hsc]
      exact h1

/-- Claim C5 (amended): given input segments with end at least start and
time-ordered words with word start at most word end, every segment
produced by segmentation satisfies end at least start; and concatenating
the produced sentences reproduces, up to whitespace, the pre-segmentation
text in which each spam-cleared item contributes nothing and each split
item is represented by its word texts rather than its sentence string. -/
theorem C5_segmentation (l : List JSeg)
    (h : ∀ it ∈ l, it.start ≤ it.stop ∧ (∀ w ∈ it.words, w.start ≤ w.stop) ∧
        it.words.Pairwise (fun a b => a.start ≤ b.start)) :
    (∀ s ∈ split_transcription l, s.start ≤ s.stop) ∧
    wsquash (segsText (split_transcription l)) =
      wsquash (concatS (l.map itemContribution)) :=
  ⟨process_json_ends l h, process_json_text l⟩

/-- Counterexample to claim C5 as stated: an input whose words are
time-ordered and valid, for which segmentation emits a segment with end
before start (the pass-through item with reversed times), and whose
concatenated output does not reproduce the concatenated input sentences
up to whitespace (the split item is rebuilt from word texts, and the spam
item's text is dropped). -/
theorem C5_counterexample :
    (∀ it ∈ cexC5, (∀ w ∈ it.words, w.start ≤ w.stop) ∧
        it.words.Pairwise (fun a b => a.start ≤ b.start)) ∧
    ¬ (∀ s ∈ split_transcription cexC5, s.start ≤ s.stop) ∧
    wsquash (segsText (split_transcription cexC5)) ≠
      wsquash (concatS (cexC5.map (fun s => s.sentence))) := by
  exact ⟨by decide, by decide, by decide⟩

/-- Witness for C5: a two-item input with a splittable sentence, checked
against the amended segmentation contract. -/
theorem C5_segmentation_witness :
    (∀ s ∈ split_transcription wlC5, s.start ≤ s.stop) ∧
    wsquash (segsText (split_transcription wlC5)) =
      wsquash (concatS (wlC5.map itemContribution)) := by
  exact C5_segmentation wlC5 (by decide)

end WH
